import Mathlib

/-!
Verification of the star-schema construction pipeline of the
BI-Superstore-Star-Schema-Dashboard repository (`app.py`).

The development shallowly embeds the data-handling core of `app.py`:
`clean_postal`, `load_and_prepare_raw`, `build_star_schema` and
`make_summary_json`.  Pandas dataframes become Lean lists of records;
pandas timestamps become day ordinals (`Nat`), with ordinal 0 standing
for 1677-09-22, the earliest calendar day representable by a pandas
`Timestamp` at midnight; a missing value (`NaT` / `NaN`) becomes
`Option.none`; monetary values become `ℚ` (float arithmetic is modelled
by exact rational arithmetic); a Python `dict` built by `dict(zip(...))`
becomes an association-list lookup in which later entries override
earlier ones; a raised exception becomes `Except.error`.
-/

/-! ## Generic list utilities

`iSort` models `pandas.sort_values` (a deterministic comparison sort;
the tie order of the pandas quicksort is unspecified, `iSort` fixes one),
`dedupByKey` models `drop_duplicates(keep="first")` /
`~duplicated(keep="first")`, and `dict_of` models a Python `dict` built
from a list of key/value pairs, where a later pair overrides an earlier
one with the same key. -/

def oInsert (le : α → α → Bool) (a : α) : List α → List α
  | [] => [a]
  | b :: l => if le a b then a :: b :: l else b :: oInsert le a l

def iSort (le : α → α → Bool) : List α → List α
  | [] => []
  | a :: l => oInsert le a (iSort le l)

def dedupKeyAux (key : α → κ) [DecidableEq κ] : List κ → List α → List α
  | _, [] => []
  | seen, a :: l =>
    if key a ∈ seen then dedupKeyAux key seen l
    else a :: dedupKeyAux key (key a :: seen) l

def dedupByKey (key : α → κ) [DecidableEq κ] (l : List α) : List α :=
  dedupKeyAux key [] l

def dict_of [DecidableEq κ] (ps : List (κ × ν)) (k : κ) : Option ν :=
  ps.foldl (fun acc p => if p.1 = k then some p.2 else acc) none

def map_except (f : α → Except ε β) : List α → Except ε (List β)
  | [] => .ok []
  | a :: l =>
    match f a with
    | .error e => .error e
    | .ok b =>
      match map_except f l with
      | .error e => .error e
      | .ok bs => .ok (b :: bs)

theorem mem_oInsert (le : α → α → Bool) (a x : α) (l : List α) :
    x ∈ oInsert le a l ↔ x = a ∨ x ∈ l := by
  induction l with
  | nil => simp [oInsert]
  | cons b l ih =>
    simp only [oInsert]
    split
    · simp
    · simp [ih]; tauto

theorem oInsert_perm (le : α → α → Bool) (a : α) (l : List α) :
    (oInsert le a l).Perm (a :: l) := by
  induction l with
  | nil => exact List.Perm.refl _
  | cons b l ih =>
    simp only [oInsert]
    split
    · exact List.Perm.refl _
    · exact (ih.cons b).trans (List.Perm.swap a b l)

theorem iSort_perm (le : α → α → Bool) (l : List α) : (iSort le l).Perm l := by
  induction l with
  | nil => exact List.Perm.refl _
  | cons a l ih => exact (oInsert_perm le a (iSort le l)).trans (ih.cons a)

theorem mem_iSort (le : α → α → Bool) (x : α) (l : List α) :
    x ∈ iSort le l ↔ x ∈ l :=
  (iSort_perm le l).mem_iff

theorem pairwise_oInsert (le : α → α → Bool)
    (htot : ∀ a b, le a b = true ∨ le b a = true)
    (htr : ∀ a b c, le a b = true → le b c = true → le a c = true)
    (a : α) (l : List α) (hl : l.Pairwise (fun x y => le x y = true)) :
    (oInsert le a l).Pairwise (fun x y => le x y = true) := by
  induction l with
  | nil => simp [oInsert]
  | cons b l ih =>
    simp only [oInsert]
    rcases List.pairwise_cons.1 hl with ⟨hb, hl'⟩
    split
    · rename_i hab
      refine List.pairwise_cons.2 ⟨?_, hl⟩
      intro x hx
      rcases List.mem_cons.1 hx with rfl | hx
      · exact hab
      · exact htr a b x hab (hb x hx)
    · rename_i hab
      have hba : le b a = true := by
        rcases htot a b with h | h
        · exact absurd h hab
        · exact h
      refine List.pairwise_cons.2 ⟨?_, ih hl'⟩
      intro x hx
      rcases (mem_oInsert le a x l).1 hx with rfl | hx
      · exact hba
      · exact hb x hx

theorem iSort_sorted (le : α → α → Bool)
    (htot : ∀ a b, le a b = true ∨ le b a = true)
    (htr : ∀ a b c, le a b = true → le b c = true → le a c = true)
    (l : List α) : (iSort le l).Pairwise (fun x y => le x y = true) := by
  induction l with
  | nil => simp [iSort]
  | cons a l ih => exact pairwise_oInsert le htot htr a (iSort le l) ih

theorem dedupKeyAux_key_not_mem (key : α → κ) [DecidableEq κ]
    (seen : List κ) (l : List α) (b : α) (hb : b ∈ dedupKeyAux key seen l) :
    key b ∉ seen := by
  induction l generalizing seen with
  | nil => simp [dedupKeyAux] at hb
  | cons a l ih =>
    simp only [dedupKeyAux] at hb
    split at hb
    · exact ih seen hb
    · rcases List.mem_cons.1 hb with rfl | hb
      · assumption
      · have := ih (key a :: seen) hb
        intro hmem
        exact this (List.mem_cons_of_mem _ hmem)

theorem dedupKeyAux_pairwise (key : α → κ) [DecidableEq κ]
    (seen : List κ) (l : List α) :
    (dedupKeyAux key seen l).Pairwise (fun a b => key a ≠ key b) := by
  induction l generalizing seen with
  | nil => simp [dedupKeyAux]
  | cons a l ih =>
    simp only [dedupKeyAux]
    split
    · exact ih seen
    · refine List.pairwise_cons.2 ⟨?_, ih (key a :: seen)⟩
      intro b hb
      have := dedupKeyAux_key_not_mem key _ _ b hb
      intro heq
      exact this (heq ▸ List.mem_cons_self _ _)

theorem dedupKeyAux_sublist (key : α → κ) [DecidableEq κ]
    (seen : List κ) (l : List α) : (dedupKeyAux key seen l).Sublist l := by
  induction l generalizing seen with
  | nil => simp [dedupKeyAux]
  | cons a l ih =>
    simp only [dedupKeyAux]
    split
    · exact (ih seen).cons a
    · exact (ih (key a :: seen)).cons₂ a

theorem dedupKeyAux_covers (key : α → κ) [DecidableEq κ]
    (seen : List κ) (l : List α) (a : α) (ha : a ∈ l) (hs : key a ∉ seen) :
    ∃ b ∈ dedupKeyAux key seen l, key b = key a := by
  induction l generalizing seen with
  | nil => simp at ha
  | cons c l ih =>
    simp only [dedupKeyAux]
    rcases List.mem_cons.1 ha with rfl | ha
    · split
      · rename_i h; exact absurd h hs
      · exact ⟨a, List.mem_cons_self _ _, rfl⟩
    · split
      · exact ih seen ha hs
      · by_cases hkey : key a ∈ key c :: seen
        · rcases List.mem_cons.1 hkey with heq | hkey
          · exact ⟨c, List.mem_cons_self _ _, heq.symm⟩
          · exact absurd hkey hs
        · rcases ih (key c :: seen) ha hkey with ⟨b, hb, hkb⟩
          exact ⟨b, List.mem_cons_of_mem _ hb, hkb⟩

theorem dedupKeyAux_first (key : α → κ) [DecidableEq κ]
    (seen : List κ) (l : List α) (b : α) (hb : b ∈ dedupKeyAux key seen l) :
    ∃ i, ∃ h : i < l.length, l.get ⟨i, h⟩ = b ∧
      ∀ j, ∀ hj : j < l.length, j < i → key (l.get ⟨j, hj⟩) ≠ key b := by
  induction l generalizing seen with
  | nil => simp [dedupKeyAux] at hb
  | cons a l ih =>
    have hnotseen := dedupKeyAux_key_not_mem key seen l (b := b)
    simp only [dedupKeyAux] at hb
    split at hb
    · rename_i hseen
      rcases ih seen hb with ⟨i, h, hget, hfirst⟩
      refine ⟨i + 1, by simp only [List.length_cons]; omega, hget, ?_⟩
      intro j hj hji
      cases j with
      | zero =>
        intro heq
        have : key b ∉ seen := dedupKeyAux_key_not_mem key seen l b hb
        simp only [List.get] at heq
        exact this (heq ▸ hseen)
      | succ j => exact hfirst j (by simp only [List.length_cons] at hj; omega) (by omega)
    · rcases List.mem_cons.1 hb with rfl | hb
      · exact ⟨0, by simp, rfl, fun j hj hji => absurd hji (by omega)⟩
      · rcases ih (key a :: seen) hb with ⟨i, h, hget, hfirst⟩
        have hne : key a ≠ key b := by
          have := dedupKeyAux_key_not_mem key (key a :: seen) l b hb
          intro heq
          exact this (heq ▸ List.mem_cons_self _ _)
        refine ⟨i + 1, by simp only [List.length_cons]; omega, hget, ?_⟩
        intro j hj hji
        cases j with
        | zero => exact hne
        | succ j => exact hfirst j (by simp only [List.length_cons] at hj; omega) (by omega)

theorem dedupByKey_pairwise (key : α → κ) [DecidableEq κ] (l : List α) :
    (dedupByKey key l).Pairwise (fun a b => key a ≠ key b) :=
  dedupKeyAux_pairwise key [] l

theorem dedupByKey_sublist (key : α → κ) [DecidableEq κ] (l : List α) :
    (dedupByKey key l).Sublist l :=
  dedupKeyAux_sublist key [] l

theorem dedupByKey_covers (key : α → κ) [DecidableEq κ] (l : List α)
    (a : α) (ha : a ∈ l) : ∃ b ∈ dedupByKey key l, key b = key a :=
  dedupKeyAux_covers key [] l a ha (by simp)

theorem dedupByKey_first (key : α → κ) [DecidableEq κ] (l : List α)
    (b : α) (hb : b ∈ dedupByKey key l) :
    ∃ i, ∃ h : i < l.length, l.get ⟨i, h⟩ = b ∧
      ∀ j, ∀ hj : j < l.length, j < i → key (l.get ⟨j, hj⟩) ≠ key b :=
  dedupKeyAux_first key [] l b hb

theorem dict_of_foldl [DecidableEq κ] (ps : List (κ × ν)) (k : κ) (acc : Option ν) :
    ps.foldl (fun acc p => if p.1 = k then some p.2 else acc) acc =
      match dict_of ps k with
      | some v => some v
      | none => acc := by
  induction ps generalizing acc with
  | nil => simp [dict_of]
  | cons p ps ih =>
    simp only [dict_of] at ih ⊢
    simp only [List.foldl_cons]
    by_cases hpk : p.1 = k
    · rw [if_pos hpk, if_pos hpk, ih (some p.2)]
      cases ps.foldl (fun acc p => if p.1 = k then some p.2 else acc) none <;> rfl
    · rw [if_neg hpk, if_neg hpk, ih acc]

theorem dict_of_cons [DecidableEq κ] (p : κ × ν) (ps : List (κ × ν)) (k : κ) :
    dict_of (p :: ps) k =
      match dict_of ps k with
      | some v => some v
      | none => if p.1 = k then some p.2 else none := by
  show ps.foldl (fun acc q => if q.1 = k then some q.2 else acc)
      (if p.1 = k then some p.2 else none) = _
  exact dict_of_foldl ps k _

theorem dict_of_eq_last [DecidableEq κ] (ps : List (κ × ν)) (k : κ) :
    dict_of ps k = ((ps.filter (fun p => decide (p.1 = k))).getLast?).map Prod.snd := by
  induction ps using List.reverseRecOn with
  | nil => rfl
  | append_singleton ps p ih =>
    have hdef : ∀ l : List (κ × ν), dict_of l k =
        l.foldl (fun acc p => if p.1 = k then some p.2 else acc) none := fun _ => rfl
    rw [hdef, List.foldl_append, ← hdef, List.filter_append]
    simp only [List.foldl_cons, List.foldl_nil]
    by_cases hpk : p.1 = k
    · rw [if_pos hpk]
      have : List.filter (fun p => decide (p.1 = k)) [p] = [p] := by
        simp [List.filter_cons, hpk]
      rw [this, List.getLast?_concat]
      rfl
    · rw [if_neg hpk]
      have : List.filter (fun p => decide (p.1 = k)) [p] = [] := by
        simp [List.filter_cons, hpk]
      rw [this, List.append_nil, ih]

theorem dict_of_eq_none_iff [DecidableEq κ] (ps : List (κ × ν)) (k : κ) :
    dict_of ps k = none ↔ ∀ p ∈ ps, p.1 ≠ k := by
  rw [dict_of_eq_last]
  rw [Option.map_eq_none', List.getLast?_eq_none_iff, List.filter_eq_nil_iff]
  simp

theorem dict_of_mem [DecidableEq κ] (ps : List (κ × ν)) (k : κ) (v : ν)
    (h : dict_of ps k = some v) : (k, v) ∈ ps := by
  rw [dict_of_eq_last] at h
  rcases Option.map_eq_some'.1 h with ⟨q, hq, hv⟩
  have hmem := List.mem_of_getLast?_eq_some hq
  rw [List.mem_filter] at hmem
  rcases hmem with ⟨hmem, hk⟩
  have hqk : q.1 = k := of_decide_eq_true hk
  have hqv : q = (k, v) := by
    cases q
    simp only at hv hqk
    simp [hv, hqk]
  exact hqv ▸ hmem

theorem dict_of_unique [DecidableEq κ] (ps : List (κ × ν)) (k : κ) (v : ν)
    (hnd : ps.Pairwise (fun p q => p.1 ≠ q.1)) (hmem : (k, v) ∈ ps) :
    dict_of ps k = some v := by
  induction ps with
  | nil => simp at hmem
  | cons p ps ih =>
    rw [dict_of_cons]
    rcases List.pairwise_cons.1 hnd with ⟨hp, hnd2⟩
    rcases List.mem_cons.1 hmem with heq | hmem2
    · have hnone : dict_of ps k = none := by
        rw [dict_of_eq_none_iff]
        intro q hq
        have := hp q hq
        rw [← heq] at this
        exact fun hqk => this hqk.symm
      rw [hnone, ← heq]
      simp
    · rw [ih hnd2 hmem2]

/-! ## Calendar model

Pandas timestamps are integers; we model the calendar day of a timestamp
as a day ordinal (`Nat`), ordinal 0 being 1677-09-22, the earliest
calendar day whose midnight is representable by a pandas `Timestamp`
(`Timestamp.min` is 1677-09-21 00:12:44, `Timestamp.max` is
2262-04-11 23:47:16).  `dateOfOrd` recovers the Gregorian calendar date
of an ordinal; `days_from_civil` is the usual civil-calendar day count
used when parsing a day/month/year string into an ordinal. -/

structure Date where
  year : Nat
  month : Nat
  day : Nat
deriving DecidableEq, Repr

def isLeap (y : Nat) : Bool := (y % 4 == 0 && y % 100 != 0) || y % 400 == 0

def daysInMonth (y m : Nat) : Nat :=
  if m = 2 then (if isLeap y then 29 else 28)
  else if m = 4 ∨ m = 6 ∨ m = 9 ∨ m = 11 then 30
  else if 1 ≤ m ∧ m ≤ 12 then 31
  else 0

def validDate (d : Date) : Prop :=
  1 ≤ d.month ∧ d.month ≤ 12 ∧ 1 ≤ d.day ∧ d.day ≤ daysInMonth d.year d.month

instance (d : Date) : Decidable (validDate d) := by
  unfold validDate; infer_instance

def nextDay (d : Date) : Date :=
  if d.day < daysInMonth d.year d.month then ⟨d.year, d.month, d.day + 1⟩
  else if d.month < 12 then ⟨d.year, d.month + 1, 1⟩
  else ⟨d.year + 1, 1, 1⟩

def date_key (d : Date) : Nat := d.year * 10000 + d.month * 100 + d.day

def epochDate : Date := ⟨1677, 9, 22⟩

def dateOfOrd : Nat → Date
  | 0 => epochDate
  | n + 1 => nextDay (dateOfOrd n)

theorem daysInMonth_pos (y m : Nat) (h1 : 1 ≤ m) (h2 : m ≤ 12) :
    28 ≤ daysInMonth y m := by
  unfold daysInMonth
  split
  · split <;> omega
  · split
    · omega
    · split <;> omega

theorem daysInMonth_le_31 (y m : Nat) : daysInMonth y m ≤ 31 := by
  unfold daysInMonth
  split
  · split <;> omega
  · split
    · omega
    · split <;> omega

theorem nextDay_valid (d : Date) (h : validDate d) : validDate (nextDay d) := by
  rcases h with ⟨h1, h2, h3, h4⟩
  unfold nextDay
  split
  · rename_i hlt
    show 1 ≤ d.month ∧ d.month ≤ 12 ∧ 1 ≤ d.day + 1 ∧ d.day + 1 ≤ daysInMonth d.year d.month
    omega
  · split
    · rename_i hge hm
      show 1 ≤ d.month + 1 ∧ d.month + 1 ≤ 12 ∧ 1 ≤ 1 ∧ 1 ≤ daysInMonth d.year (d.month + 1)
      have := daysInMonth_pos d.year (d.month + 1) (by omega) (by omega)
      omega
    · rename_i hge hm
      show 1 ≤ 1 ∧ 1 ≤ 12 ∧ 1 ≤ 1 ∧ 1 ≤ daysInMonth (d.year + 1) 1
      have := daysInMonth_pos (d.year + 1) 1 (by omega) (by omega)
      omega

theorem date_key_lt_nextDay (d : Date) (h : validDate d) :
    date_key d < date_key (nextDay d) := by
  rcases h with ⟨h1, h2, h3, h4⟩
  have h31 := daysInMonth_le_31 d.year d.month
  unfold nextDay
  split
  · show date_key d < d.year * 10000 + d.month * 100 + (d.day + 1)
    unfold date_key
    omega
  · split
    · rename_i hge hm
      show date_key d < d.year * 10000 + (d.month + 1) * 100 + 1
      unfold date_key
      omega
    · rename_i hge hm
      show date_key d < (d.year + 1) * 10000 + 1 * 100 + 1
      unfold date_key
      omega

theorem dateOfOrd_valid (n : Nat) : validDate (dateOfOrd n) := by
  induction n with
  | zero => decide
  | succ n ih => exact nextDay_valid _ ih

theorem date_key_ord_strict_mono (m n : Nat) (h : m < n) :
    date_key (dateOfOrd m) < date_key (dateOfOrd n) := by
  induction n with
  | zero => omega
  | succ n ih =>
    rcases Nat.lt_or_ge m n with hmn | hmn
    · exact (ih hmn).trans (date_key_lt_nextDay _ (dateOfOrd_valid n))
    · have : m = n := by omega
      subst this
      exact date_key_lt_nextDay _ (dateOfOrd_valid m)

def days_from_civil (y m d : Int) : Int :=
  let y2 := if m ≤ 2 then y - 1 else y
  let era := (if 0 ≤ y2 then y2 else y2 - 399) / 400
  let yoe := y2 - era * 400
  let mp := (m + 9) % 12
  let doy := (153 * mp + 2) / 5 + d - 1
  let doe := yoe * 365 + yoe / 4 - yoe / 100 + doy
  era * 146097 + doe - 719468

def isoWeekday (dt : Date) : Int :=
  Int.emod (days_from_civil dt.year dt.month dt.day + 3) 7 + 1

def cumDays (y : Nat) : Nat → Nat
  | 0 => 0
  | m + 1 => cumDays y m + daysInMonth y (m + 1)

def dayOfYear (dt : Date) : Nat := cumDays dt.year (dt.month - 1) + dt.day

def isoWeeksInYear (y : Nat) : Int :=
  let p := isoWeekday ⟨y, 1, 1⟩
  if p = 4 ∨ (isLeap y ∧ p = 3) then 53 else 52

def week_of_year (dt : Date) : Int :=
  let w := (Int.ofNat (dayOfYear dt) - isoWeekday dt + 10) / 7
  if w < 1 then isoWeeksInYear (dt.year - 1)
  else if isoWeeksInYear dt.year < w then 1
  else w

def month_name : Nat → String
  | 1 => "January"
  | 2 => "February"
  | 3 => "March"
  | 4 => "April"
  | 5 => "May"
  | 6 => "June"
  | 7 => "July"
  | 8 => "August"
  | 9 => "September"
  | 10 => "October"
  | 11 => "November"
  | 12 => "December"
  | _ => ""

/-- Day-first date parsing, `pd.to_datetime(x, dayfirst=True, errors="coerce")`
applied to the `DD/MM/YYYY` strings of the input file: an unparseable or
calendar-invalid string, or one outside the representable timestamp range,
becomes the missing marker `none`; otherwise the day ordinal. -/
def splitSlash : List Char → List (List Char)
  | [] => [[]]
  | c :: cs =>
    if c = '/' then [] :: splitSlash cs
    else
      match splitSlash cs with
      | h :: t => (c :: h) :: t
      | [] => [[c]]

def digitsToNat (l : List Char) : Option Nat :=
  if l ≠ [] ∧ l.all Char.isDigit then
    some (l.foldl (fun a c => a * 10 + (c.toNat - 48)) 0)
  else none

def parse_date (s : String) : Option Nat :=
  match splitSlash s.data with
  | [ds, ms, ys] =>
    match digitsToNat ds, digitsToNat ms, digitsToNat ys with
    | some d, some m, some y =>
      if validDate ⟨y, m, d⟩ then
        if 16770922 ≤ date_key ⟨y, m, d⟩ ∧ date_key ⟨y, m, d⟩ ≤ 22620411 then
          some ((days_from_civil y m d - days_from_civil 1677 9 22).toNat)
        else none
      else none
    | _, _, _ => none
  | _ => none

/-! ## Records

`RawRec` is one row of the input file (`train.csv`); `Rec` is one row of
the prepared dataframe returned by `load_and_prepare_raw`: dates parsed
into `Option` day ordinals, postal code cleaned into a plain string.
A `none` postal code in `RawRec` models a `NaN` cell. -/

structure RawRec where
  row_id : Nat
  order_id : String
  order_date : String
  ship_date : String
  ship_mode : String
  customer_id : String
  customer_name : String
  segment : String
  country : String
  region : String
  state : String
  city : String
  postal_code : Option String
  product_id : String
  product_name : String
  category : String
  sub_category : String
  sales : ℚ
deriving DecidableEq, Repr

structure Rec where
  row_id : Nat
  order_id : String
  order_date : Option Nat
  ship_date : Option Nat
  ship_mode : String
  customer_id : String
  customer_name : String
  segment : String
  country : String
  region : String
  state : String
  city : String
  postal_code : String
  product_id : String
  product_name : String
  category : String
  sub_category : String
  sales : ℚ
deriving DecidableEq, Repr

/-- Python `str.strip()`: drop leading and trailing whitespace. -/
def str_trim (s : String) : String :=
  ⟨((s.data.dropWhile Char.isWhitespace).reverse.dropWhile
      Char.isWhitespace).reverse⟩

/-- Python `str.endswith(".0")`. -/
def ends_dot_zero (s : String) : Bool :=
  match s.data.reverse with
  | '0' :: '.' :: _ => true
  | _ => false

/-- Python `s[:-2]` on a string of length at least 2. -/
def str_dropRight2 (s : String) : String :=
  ⟨s.data.take (s.data.length - 2)⟩

def clean_postal (x : Option String) : String :=
  match x with
  | none => "Unknown"
  | some v =>
    let s := str_trim v
    if ends_dot_zero s then str_dropRight2 s else s

def normalize_row (r : RawRec) : Rec :=
  { row_id := r.row_id, order_id := r.order_id,
    order_date := parse_date r.order_date, ship_date := parse_date r.ship_date,
    ship_mode := r.ship_mode, customer_id := r.customer_id,
    customer_name := r.customer_name, segment := r.segment,
    country := r.country, region := r.region, state := r.state,
    city := r.city, postal_code := clean_postal r.postal_code,
    product_id := r.product_id, product_name := r.product_name,
    category := r.category, sub_category := r.sub_category, sales := r.sales }

/-- The duplicate-detection key: every column except `Row ID` (realised by
blanking the row identifier, so two records agree on the key iff they agree
on every other column). -/
def cols_no_rowid (r : Rec) : Rec := { r with row_id := 0 }

/-- Two prepared records are logical duplicates: equal on every attribute
except the row identifier. -/
def logical_dup (a b : Rec) : Prop :=
  a.order_id = b.order_id ∧ a.order_date = b.order_date ∧
  a.ship_date = b.ship_date ∧ a.ship_mode = b.ship_mode ∧
  a.customer_id = b.customer_id ∧ a.customer_name = b.customer_name ∧
  a.segment = b.segment ∧ a.country = b.country ∧ a.region = b.region ∧
  a.state = b.state ∧ a.city = b.city ∧ a.postal_code = b.postal_code ∧
  a.product_id = b.product_id ∧ a.product_name = b.product_name ∧
  a.category = b.category ∧ a.sub_category = b.sub_category ∧
  a.sales = b.sales

theorem logical_dup_iff_key_eq (a b : Rec) :
    logical_dup a b ↔ cols_no_rowid a = cols_no_rowid b := by
  cases a
  cases b
  simp [logical_dup, cols_no_rowid, Rec.mk.injEq]

/-- `load_and_prepare_raw`: parse dates day-first, clean postal codes, then
drop logical duplicates (every column but `Row ID`), keeping the first
occurrence — the normalizer of `app.py`. -/
def load_and_prepare_raw (rows : List RawRec) : List Rec :=
  dedupByKey cols_no_rowid (rows.map normalize_row)

/-! ## String and tuple comparison

Python (and pandas object-dtype) strings compare lexicographically by
code point; `strLt`/`strLe` implement exactly that, and `lex_le`
composes lexicographic comparison of tuples for the multi-column
`sort_values` calls. -/

def ltCharList : List Char → List Char → Bool
  | [], [] => false
  | [], _ :: _ => true
  | _ :: _, [] => false
  | a :: as, b :: bs => if a < b then true else if b < a then false else ltCharList as bs

def strLt (s t : String) : Bool := ltCharList s.data t.data

def strLe (s t : String) : Bool := !(strLt t s)

theorem ltCharList_asymm (as bs : List Char) (h : ltCharList as bs = true) :
    ltCharList bs as = false := by
  induction as generalizing bs with
  | nil =>
    cases bs with
    | nil => simp [ltCharList] at h
    | cons b bs => simp [ltCharList]
  | cons a as ih =>
    cases bs with
    | nil => simp [ltCharList] at h
    | cons b bs =>
      simp only [ltCharList] at h ⊢
      rcases lt_trichotomy a b with hab | hab | hab
      · rw [if_neg (lt_asymm hab), if_pos hab]
      · subst hab
        rw [if_neg (lt_irrefl a)] at h ⊢
        rw [if_neg (lt_irrefl a)] at h ⊢
        exact ih bs h
      · rw [if_pos hab] at h
        rw [if_neg (lt_asymm hab)] at h
        simp at h

theorem ltCharList_connex (as bs : List Char) (h1 : ltCharList as bs = false)
    (h2 : ltCharList bs as = false) : as = bs := by
  induction as generalizing bs with
  | nil =>
    cases bs with
    | nil => rfl
    | cons b bs => simp [ltCharList] at h1
  | cons a as ih =>
    cases bs with
    | nil => simp [ltCharList] at h2
    | cons b bs =>
      simp only [ltCharList] at h1 h2
      rcases lt_trichotomy a b with hab | hab | hab
      · rw [if_pos hab] at h1; simp at h1
      · subst hab
        rw [if_neg (lt_irrefl a), if_neg (lt_irrefl a)] at h1 h2
        rw [ih bs h1 h2]
      · rw [if_pos hab] at h2; simp at h2

theorem ltCharList_trans (as bs cs : List Char) (h1 : ltCharList as bs = true)
    (h2 : ltCharList bs cs = true) : ltCharList as cs = true := by
  induction as generalizing bs cs with
  | nil =>
    cases cs with
    | nil =>
      cases bs with
      | nil => simp [ltCharList] at h1
      | cons b bs => simp [ltCharList] at h2
    | cons c cs => simp [ltCharList]
  | cons a as ih =>
    cases bs with
    | nil => simp [ltCharList] at h1
    | cons b bs =>
      cases cs with
      | nil => simp [ltCharList] at h2
      | cons c cs =>
        simp only [ltCharList] at h1 h2 ⊢
        rcases lt_trichotomy a b with hab | hab | hab
        · rcases lt_trichotomy b c with hbc | hbc | hbc
          · rw [if_pos (lt_trans hab hbc)]
          · subst hbc; rw [if_pos hab]
          · rw [if_pos hbc] at h2
            rw [if_neg (lt_asymm hbc)] at h2
            simp at h2
        · subst hab
          rw [if_neg (lt_irrefl a), if_neg (lt_irrefl a)] at h1
          rcases lt_trichotomy a c with hac | hac | hac
          · rw [if_pos hac]
          · subst hac
            rw [if_neg (lt_irrefl a), if_neg (lt_irrefl a)] at h2 ⊢
            exact ih bs cs h1 h2
          · rw [if_neg (lt_asymm hac), if_pos hac] at h2
            simp at h2
        · rw [if_neg (lt_asymm hab), if_pos hab] at h1
          simp at h1

theorem strLt_asymm (s t : String) (h : strLt s t = true) : strLt t s = false :=
  ltCharList_asymm _ _ h

theorem strLt_connex (s t : String) (h1 : strLt s t = false)
    (h2 : strLt t s = false) : s = t := by
  apply String.ext
  exact ltCharList_connex _ _ h1 h2

theorem strLt_trans (s t u : String) (h1 : strLt s t = true)
    (h2 : strLt t u = true) : strLt s u = true :=
  ltCharList_trans _ _ _ h1 h2

theorem strLe_total (s t : String) : strLe s t = true ∨ strLe t s = true := by
  unfold strLe
  by_cases h : strLt t s = true
  · right; rw [strLt_asymm t s h]; rfl
  · left; rw [Bool.not_eq_true] at h; rw [h]; rfl

theorem strLe_trans (s t u : String) (h1 : strLe s t = true)
    (h2 : strLe t u = true) : strLe s u = true := by
  unfold strLe at *
  by_cases h : strLt u s = true
  · exfalso
    by_cases hts : strLt t s = true
    · rw [hts] at h1; simp at h1
    · by_cases hut : strLt u t = true
      · rw [hut] at h2; simp at h2
      · rw [Bool.not_eq_true] at hts hut
        have := strLt_connex t s hts (by
          by_cases hst : strLt s t = true
          · have := strLt_trans u s t h hst
            rw [this] at hut; simp at hut
          · rw [Bool.not_eq_true] at hst; exact hst)
        subst this
        rw [h] at hut; simp at hut
  · rw [Bool.not_eq_true] at h; rw [h]; rfl

def lex_le (ltA : α → α → Bool) (leB : β → β → Bool) (a b : α × β) : Bool :=
  if ltA a.1 b.1 then true else if ltA b.1 a.1 then false else leB a.2 b.2

theorem lex_le_iff (ltA : α → α → Bool) (leB : β → β → Bool)
    (hconn : ∀ a b, ltA a b = false → ltA b a = false → a = b)
    (a b : α × β) :
    lex_le ltA leB a b = true ↔
      ltA a.1 b.1 = true ∨ (a.1 = b.1 ∧ leB a.2 b.2 = true) := by
  unfold lex_le
  by_cases h1 : ltA a.1 b.1 = true
  · simp [h1]
  · rw [Bool.not_eq_true] at h1
    by_cases h2 : ltA b.1 a.1 = true
    · have hne : ¬(a.1 = b.1 ∧ leB a.2 b.2 = true) := by
        rintro ⟨heq, hrest⟩
        rw [heq] at h1 h2
        rw [h1] at h2
        exact Bool.false_ne_true h2
      simp [h1, h2, hne]
    · rw [Bool.not_eq_true] at h2
      have heq : a.1 = b.1 := hconn _ _ h1 h2
      have hirr : ltA b.1 b.1 = false := heq ▸ h1
      simp [heq, hirr]

theorem lex_le_total (ltA : α → α → Bool) (leB : β → β → Bool)
    (hconn : ∀ a b, ltA a b = false → ltA b a = false → a = b)
    (hB : ∀ a b, leB a b = true ∨ leB b a = true)
    (a b : α × β) : lex_le ltA leB a b = true ∨ lex_le ltA leB b a = true := by
  rw [lex_le_iff ltA leB hconn, lex_le_iff ltA leB hconn]
  by_cases h1 : ltA a.1 b.1 = true
  · exact Or.inl (Or.inl h1)
  · by_cases h2 : ltA b.1 a.1 = true
    · exact Or.inr (Or.inl h2)
    · rw [Bool.not_eq_true] at h1 h2
      have heq : a.1 = b.1 := hconn _ _ h1 h2
      rcases hB a.2 b.2 with h | h
      · exact Or.inl (Or.inr ⟨heq, h⟩)
      · exact Or.inr (Or.inr ⟨heq.symm, h⟩)

theorem lex_le_trans (ltA : α → α → Bool) (leB : β → β → Bool)
    (hconn : ∀ a b, ltA a b = false → ltA b a = false → a = b)
    (htr : ∀ a b c, ltA a b = true → ltA b c = true → ltA a c = true)
    (hBtr : ∀ a b c, leB a b = true → leB b c = true → leB a c = true)
    (a b c : α × β) (h1 : lex_le ltA leB a b = true)
    (h2 : lex_le ltA leB b c = true) : lex_le ltA leB a c = true := by
  rw [lex_le_iff ltA leB hconn] at h1 h2 ⊢
  rcases h1 with h1 | ⟨h1e, h1b⟩
  · rcases h2 with h2 | ⟨h2e, h2b⟩
    · exact Or.inl (htr _ _ _ h1 h2)
    · exact Or.inl (h2e ▸ h1)
  · rcases h2 with h2 | ⟨h2e, h2b⟩
    · exact Or.inl (h1e ▸ h2)
    · exact Or.inr ⟨h1e.trans h2e, hBtr _ _ _ h1b h2b⟩

/-! ## Star-schema tables (`build_star_schema`) -/

structure DateRow where
  date_key : Nat
  full_date : Nat
  day : Nat
  month : Nat
  month_name : String
  quarter : Nat
  year : Nat
  week_of_year : Int
deriving DecidableEq, Repr

structure CustomerRow where
  customer_key : Nat
  customer_id : String
  customer_name : String
  segment : String
deriving DecidableEq, Repr

structure ProductRow where
  product_key : Nat
  product_id : String
  category : String
  sub_category : String
  product_name : Option String
deriving DecidableEq, Repr

structure RegionRow where
  region_key : Nat
  country : String
  region : String
  state : String
  city : String
  postal_code : String
deriving DecidableEq, Repr

structure ShipModeRow where
  ship_mode_key : Nat
  ship_mode : String
deriving DecidableEq, Repr

structure FactRow where
  sales_id : Nat
  row_id : Nat
  order_id : String
  order_date_key : Option Nat
  ship_date_key : Option Nat
  customer_key : Option Nat
  product_key : Option Nat
  region_key : Nat
  ship_mode_key : Option Nat
  sales_amount : ℚ
deriving DecidableEq, Repr

structure StarSchema where
  dim_date : List DateRow
  dim_customer : List CustomerRow
  dim_product : List ProductRow
  dim_region : List RegionRow
  dim_ship_mode : List ShipModeRow
  fact_sales : List FactRow
deriving DecidableEq, Repr

instance : Inhabited StarSchema := ⟨⟨[], [], [], [], [], []⟩⟩

/-- 1-based dense enumeration, `range(k, k+len)` zipped with the rows. -/
def enum1 (k : Nat) : List α → List (Nat × α)
  | [] => []
  | a :: l => (k, a) :: enum1 (k + 1) l

def cust_tuple (r : Rec) : String × String × String :=
  (r.customer_id, r.customer_name, r.segment)

def prod_tuple (r : Rec) : String × String × String :=
  (r.product_id, r.category, r.sub_category)

def geo_tuple (r : Rec) : String × String × String × String × String :=
  (r.country, r.region, r.state, r.city, r.postal_code)

/-- lexicographic comparison of the (Country, Region, State, City,
Postal Code) tuple, `sort_values(geo_cols)`. -/
def geo_le (a b : String × String × String × String × String) : Bool :=
  lex_le strLt (lex_le strLt (lex_le strLt (lex_le strLt strLe))) a b

/-- descending comparison on the occurrence count column `n`. -/
def natDescLt (x y : Nat) : Bool := decide (y < x)

/-- the composite ordering of
`sort_values(["Product ID", "n", "Product Name"], ascending=[True, False, True])`. -/
def name_count_le (a b : (String × String) × Nat) : Bool :=
  lex_le strLt (lex_le natDescLt strLe)
    (a.1.1, (a.2, a.1.2)) (b.1.1, (b.2, b.1.2))

/-- occurrence counts of each (product id, product name) pair:
`df.groupby(["Product ID", "Product Name"]).size()`. -/
def name_counts (df : List Rec) : List ((String × String) × Nat) :=
  (dedupByKey id (df.map fun r => (r.product_id, r.product_name))).map
    fun p => (p, (df.filter fun r => decide ((r.product_id, r.product_name) = p)).length)

/-- the sorted count table with one row kept per product id
(`sort_values` + `drop_duplicates("Product ID")`). -/
def mode_name_rows (df : List Rec) : List ((String × String) × Nat) :=
  dedupByKey (fun p => p.1.1) (iSort name_count_le (name_counts df))

/-- most frequent product name per product id, ties broken by the
lexicographically smallest name. -/
def mode_name (df : List Rec) (pid : String) : Option String :=
  ((mode_name_rows df).find? fun p => decide (p.1.1 = pid)).map fun p => p.1.2

/-- `Series.min` with NaT skipped: `none` iff no value is present. -/
def series_min (l : List Nat) : Option Nat :=
  l.foldl (fun acc x =>
    match acc with
    | none => some x
    | some m => some (Nat.min m x)) none

def series_max (l : List Nat) : Option Nat :=
  l.foldl (fun acc x =>
    match acc with
    | none => some x
    | some m => some (Nat.max m x)) none

/-- Python `min(a, b)` on timestamps where `NaT` compares `False` with
everything: `min` keeps its first argument when the comparison fails, so a
`NaT` first argument wins and a `NaT` second argument loses. -/
def pyMin : Option Nat → Option Nat → Option Nat
  | none, _ => none
  | some x, none => some x
  | some x, some y => some (Nat.min x y)

def pyMax : Option Nat → Option Nat → Option Nat
  | none, _ => none
  | some x, none => some x
  | some x, some y => some (Nat.max x y)

def order_dates (df : List Rec) : List Nat := df.filterMap fun r => r.order_date

def ship_dates (df : List Rec) : List Nat := df.filterMap fun r => r.ship_date

def min_all (df : List Rec) : Option Nat :=
  pyMin (series_min (order_dates df)) (series_min (ship_dates df))

def max_all (df : List Rec) : Option Nat :=
  pyMax (series_max (order_dates df)) (series_max (ship_dates df))

def mkDateRow (o : Nat) : DateRow :=
  let dt := dateOfOrd o
  { date_key := date_key dt, full_date := o, day := dt.day, month := dt.month,
    month_name := month_name dt.month, quarter := (dt.month + 2) / 3,
    year := dt.year, week_of_year := week_of_year dt }

/-- `pd.date_range(min_all, max_all, freq="D")` with the derived columns:
one row per calendar day from `lo` to `hi` inclusive. -/
def dim_date_of (lo hi : Nat) : List DateRow :=
  (List.range (hi - lo + 1)).map fun i => mkDateRow (lo + i)

def dim_customer_of (df : List Rec) : List CustomerRow :=
  (enum1 1 (iSort (fun a b => strLe a.1 b.1)
      (dedupByKey id (df.map cust_tuple)))).map
    fun p => { customer_key := p.1, customer_id := p.2.1,
               customer_name := p.2.2.1, segment := p.2.2.2 }

def dim_product_of (df : List Rec) : List ProductRow :=
  (enum1 1 (iSort (fun a b => strLe a.1 b.1)
      (dedupByKey id (df.map prod_tuple)))).map
    fun p => { product_key := p.1, product_id := p.2.1,
               category := p.2.2.1, sub_category := p.2.2.2,
               product_name := mode_name df p.2.1 }

def dim_region_of (df : List Rec) : List RegionRow :=
  (enum1 1 (iSort geo_le (dedupByKey id (df.map geo_tuple)))).map
    fun p => { region_key := p.1, country := p.2.1, region := p.2.2.1,
               state := p.2.2.2.1, city := p.2.2.2.2.1,
               postal_code := p.2.2.2.2.2 }

def dim_ship_mode_of (df : List Rec) : List ShipModeRow :=
  (enum1 1 (iSort strLe (dedupByKey id (df.map fun r => r.ship_mode)))).map
    fun p => { ship_mode_key := p.1, ship_mode := p.2 }

def date_to_key (dd : List DateRow) : Nat → Option Nat :=
  dict_of (dd.map fun r => (r.full_date, r.date_key))

def cust_to_key (dc : List CustomerRow) : String → Option Nat :=
  dict_of (dc.map fun r => (r.customer_id, r.customer_key))

def prod_to_key (dp : List ProductRow) : String → Option Nat :=
  dict_of (dp.map fun r => (r.product_id, r.product_key))

def ship_to_key (ds : List ShipModeRow) : String → Option Nat :=
  dict_of (ds.map fun r => (r.ship_mode, r.ship_mode_key))

def geo_to_key (dr : List RegionRow) :
    String × String × String × String × String → Option Nat :=
  dict_of (dr.map fun r => ((r.country, r.region, r.state, r.city, r.postal_code),
    r.region_key))

/-- One fact row: the date, customer, product and ship-mode keys go through
`Series.map`, which silently yields a missing value on a lookup miss; the
region key goes through a plain `dict` subscript, which raises `KeyError`. -/
def fact_row (d2k : Nat → Option Nat) (c2k p2k s2k : String → Option Nat)
    (g2k : String × String × String × String × String → Option Nat)
    (r : Rec) : Except String FactRow :=
  match g2k (geo_tuple r) with
  | none => .error "KeyError"
  | some rk => .ok {
      sales_id := 0,
      row_id := r.row_id, order_id := r.order_id,
      order_date_key := r.order_date.bind d2k,
      ship_date_key := r.ship_date.bind d2k,
      customer_key := c2k r.customer_id,
      product_key := p2k r.product_id,
      region_key := rk,
      ship_mode_key := s2k r.ship_mode,
      sales_amount := r.sales }

/-- `build_star_schema(df)`: the five dimensions, their lookups, and the
fact table.  `pd.date_range` raises when either end of the date range is
`NaT`; building the region keys raises `KeyError` on a lookup miss. -/
def build_star_schema (df : List Rec) : Except String StarSchema :=
  match min_all df, max_all df with
  | some lo, some hi =>
    let dd := dim_date_of lo hi
    let dc := dim_customer_of df
    let dp := dim_product_of df
    let dr := dim_region_of df
    let ds := dim_ship_mode_of df
    match map_except (fact_row (date_to_key dd) (cust_to_key dc)
        (prod_to_key dp) (ship_to_key ds) (geo_to_key dr)) df with
    | .error e => .error e
    | .ok fact0 =>
      .ok { dim_date := dd, dim_customer := dc, dim_product := dp,
            dim_region := dr, dim_ship_mode := ds,
            fact_sales := (enum1 1 fact0).map fun p => { p.2 with sales_id := p.1 } }
  | _, _ => .error "Neither start nor end can be NaT"

/-! ## Summary (`make_summary_json`)

Sales amounts are modelled as exact rationals; `round(x, 2)` is rounding
half-to-even at two decimal places.  Grouping keeps keys in
first-occurrence order and the group totals are computed exactly; the
output re-sorts groups (by exact total, descending, for categories and
products; by label, ascending, for months) and rounds each total only
when the output object is assembled, exactly as `make_summary_json`
rounds only inside its comprehensions. -/

def round2 (q : ℚ) : ℚ :=
  let n : ℤ := Int.floor (q * 100)
  let frac : ℚ := q * 100 - n
  let r : ℤ :=
    if frac < 1/2 then n
    else if 1/2 < frac then n + 1
    else if n % 2 = 0 then n else n + 1
  (r : ℚ) / 100

def sum_sales (df : List Rec) : ℚ := (df.map fun r => r.sales).sum

def cat_total (df : List Rec) (c : String) : ℚ :=
  sum_sales (df.filter fun r => decide (r.category = c))

def prodname_total (df : List Rec) (n : String) : ℚ :=
  sum_sales (df.filter fun r => decide (r.product_name = n))

def dChar (n : Nat) : Char := Char.ofNat (48 + n % 10)

def pad4 (y : Nat) : List Char :=
  [dChar (y / 1000), dChar (y / 100), dChar (y / 10), dChar y]

def month_label_of (y m : Nat) : String :=
  ⟨pad4 y ++ '-' :: [dChar (m / 10), dChar m]⟩

/-- `Order Date.dt.to_period("M").astype(str)`: the `"YYYY-MM"` label of a
present order date, and the literal string `"NaT"` for a missing one. -/
def month_label (r : Rec) : String :=
  match r.order_date with
  | none => "NaT"
  | some o =>
    let dt := dateOfOrd o
    month_label_of dt.year dt.month

def month_total (df : List Rec) (lab : String) : ℚ :=
  sum_sales (df.filter fun r => decide (month_label r = lab))

def sales_by_category (df : List Rec) : List (String × ℚ) :=
  (iSort (fun a b => decide (b.2 ≤ a.2))
    ((iSort strLe (dedupByKey id (df.map fun r => r.category))).map
      fun c => (c, cat_total df c))).map
    fun p => (p.1, round2 p.2)

def top_products (df : List Rec) : List (String × ℚ) :=
  ((iSort (fun a b => decide (b.2 ≤ a.2))
    ((iSort strLe (dedupByKey id (df.map fun r => r.product_name))).map
      fun n => (n, prodname_total df n))).take 10).map
    fun p => (p.1, round2 p.2)

def monthly_sales_trend (df : List Rec) : List (String × ℚ) :=
  (iSort (fun a b => strLe a.1 b.1)
    ((dedupByKey id (df.map month_label)).map
      fun lab => (lab, month_total df lab))).map
    fun p => (p.1, round2 p.2)

structure Summary where
  total_sales : ℚ
  sales_by_category : List (String × ℚ)
  top_products : List (String × ℚ)
  monthly_sales_trend : List (String × ℚ)
deriving DecidableEq, Repr

def make_summary_json (df : List Rec) : Summary :=
  { total_sales := round2 (sum_sales df),
    sales_by_category := sales_by_category df,
    top_products := top_products df,
    monthly_sales_trend := monthly_sales_trend df }

/-! ## Claims -/

/-- C9: postal-code normalization strips a trailing ".0" artifact from a
(whitespace-trimmed) value, e.g. "90210.0" becomes "90210", and maps a
missing value to the literal string "Unknown" — by its type a total string
function, never a null. -/
theorem C9_clean_postal (s : String) (htrim : str_trim s = s)
    (hdot : ends_dot_zero s = true) :
    clean_postal (some s) = str_dropRight2 s ∧ clean_postal none = "Unknown" := by
  constructor
  · simp [clean_postal, htrim, hdot]
  · rfl

theorem C9_clean_postal_witness :
    str_trim "90210.0" = "90210.0" ∧
    clean_postal (some "90210.0") = "90210" ∧ clean_postal none = "Unknown" := by
  have h := C9_clean_postal "90210.0" (by decide) (by decide)
  exact ⟨by decide, by rw [h.1]; decide, h.2⟩

/-- C3: `load_and_prepare_raw` parses and normalizes every row first and
deduplicates after, on the normalized rows: in its output no two rows are
logical duplicates (equal on everything but `Row ID`); the output is a
subsequence of the normalized input; every normalized row is represented
by a surviving duplicate; and every surviving row is the first occurrence
(in input order) of its duplicate class among the normalized rows — so
rows that become equal only after normalization are deduplicated too. -/
theorem C3_normalize_then_dedup (rows : List RawRec) :
    (load_and_prepare_raw rows).Pairwise (fun a b => ¬ logical_dup a b) ∧
    (load_and_prepare_raw rows).Sublist (rows.map normalize_row) ∧
    (∀ r ∈ rows.map normalize_row,
      ∃ q ∈ load_and_prepare_raw rows, logical_dup q r) ∧
    (∀ q ∈ load_and_prepare_raw rows,
      ∃ i, ∃ h : i < (rows.map normalize_row).length,
        (rows.map normalize_row).get ⟨i, h⟩ = q ∧
        ∀ j, ∀ hj : j < (rows.map normalize_row).length, j < i →
          ¬ logical_dup ((rows.map normalize_row).get ⟨j, hj⟩) q) := by
  refine ⟨?_, dedupByKey_sublist _ _, ?_, ?_⟩
  · have h := dedupByKey_pairwise cols_no_rowid (rows.map normalize_row)
    exact h.imp (fun hne hdup => hne ((logical_dup_iff_key_eq _ _).1 hdup))
  · intro r hr
    rcases dedupByKey_covers cols_no_rowid _ r hr with ⟨q, hq, hkey⟩
    exact ⟨q, hq, (logical_dup_iff_key_eq q r).2 hkey⟩
  · intro q hq
    rcases dedupByKey_first cols_no_rowid _ q hq with ⟨i, h, hget, hfirst⟩
    refine ⟨i, h, hget, ?_⟩
    intro j hj hji hdup
    exact hfirst j hj hji ((logical_dup_iff_key_eq _ _).1 hdup)

/-- A prepared record used to instantiate theorems on concrete inputs. -/
def rec0 : Rec :=
  { row_id := 1, order_id := "CA-2021-1", order_date := some 0,
    ship_date := some 0, ship_mode := "First Class", customer_id := "C1",
    customer_name := "Ann", segment := "Consumer",
    country := "United States", region := "West", state := "California",
    city := "Los Angeles", postal_code := "90210", product_id := "P1",
    product_name := "Widget", category := "Technology",
    sub_category := "Phones", sales := 10 }

/-- C7: on a normalized record set in which every order date and every ship
date is missing, `build_star_schema` fails with an error before any date
dimension or fact table is produced: both ends of the date range are `NaT`
and `pd.date_range` raises. -/
theorem C7_no_valid_dates (df : List Rec)
    (h : ∀ r ∈ df, r.order_date = none ∧ r.ship_date = none) :
    build_star_schema df = .error "Neither start nor end can be NaT" := by
  have ho : order_dates df = [] := by
    rw [order_dates, List.filterMap_eq_nil_iff]
    exact fun r hr => (h r hr).1
  have hs : ship_dates df = [] := by
    rw [ship_dates, List.filterMap_eq_nil_iff]
    exact fun r hr => (h r hr).2
  unfold build_star_schema min_all max_all
  rw [ho, hs]
  rfl

theorem C7_no_valid_dates_witness :
    (∀ r ∈ [{ rec0 with order_date := none, ship_date := none }],
      r.order_date = none ∧ r.ship_date = none) ∧
    build_star_schema [{ rec0 with order_date := none, ship_date := none }] =
      .error "Neither start nor end can be NaT" :=
  ⟨by decide, C7_no_valid_dates _ (by decide)⟩

/-! ## Lemmas about the build -/

theorem foldl_min_some (l : List Nat) (a : Nat) :
    l.foldl (fun acc x =>
      match acc with
      | none => some x
      | some m => some (Nat.min m x)) (some a) = some (l.foldl Nat.min a) := by
  induction l generalizing a with
  | nil => rfl
  | cons x l ih => exact ih (Nat.min a x)

theorem foldl_max_some (l : List Nat) (a : Nat) :
    l.foldl (fun acc x =>
      match acc with
      | none => some x
      | some m => some (Nat.max m x)) (some a) = some (l.foldl Nat.max a) := by
  induction l generalizing a with
  | nil => rfl
  | cons x l ih => exact ih (Nat.max a x)

theorem foldl_min_facts (l : List Nat) (a : Nat) :
    (∀ x ∈ l, l.foldl Nat.min a ≤ x) ∧ l.foldl Nat.min a ≤ a ∧
      (l.foldl Nat.min a = a ∨ l.foldl Nat.min a ∈ l) := by
  induction l generalizing a with
  | nil => exact ⟨by simp, le_refl a, Or.inl rfl⟩
  | cons x l ih =>
    rcases ih (Nat.min a x) with ⟨hall, hle, hmem⟩
    simp only [List.foldl_cons]
    refine ⟨?_, hle.trans (Nat.min_le_left a x), ?_⟩
    · intro y hy
      rcases List.mem_cons.1 hy with rfl | hy
      · exact hle.trans (Nat.min_le_right a y)
      · exact hall y hy
    · rcases hmem with hm | hm
      · rcases Nat.le_total a x with hax | hax
        · have hmin : Nat.min a x = a := Nat.min_eq_left hax
          exact Or.inl (hm.trans hmin)
        · have hmin : Nat.min a x = x := Nat.min_eq_right hax
          refine Or.inr ?_
          rw [hm.trans hmin]
          exact List.mem_cons_self x l
      · exact Or.inr (List.mem_cons_of_mem x hm)

theorem foldl_max_facts (l : List Nat) (a : Nat) :
    (∀ x ∈ l, x ≤ l.foldl Nat.max a) ∧ a ≤ l.foldl Nat.max a ∧
      (l.foldl Nat.max a = a ∨ l.foldl Nat.max a ∈ l) := by
  induction l generalizing a with
  | nil => exact ⟨by simp, le_refl a, Or.inl rfl⟩
  | cons x l ih =>
    rcases ih (Nat.max a x) with ⟨hall, hle, hmem⟩
    simp only [List.foldl_cons]
    refine ⟨?_, (Nat.le_max_left a x).trans hle, ?_⟩
    · intro y hy
      rcases List.mem_cons.1 hy with rfl | hy
      · exact (Nat.le_max_right a y).trans hle
      · exact hall y hy
    · rcases hmem with hm | hm
      · rcases Nat.le_total x a with hax | hax
        · have hmax : Nat.max a x = a := Nat.max_eq_left hax
          exact Or.inl (hm.trans hmax)
        · have hmax : Nat.max a x = x := Nat.max_eq_right hax
          refine Or.inr ?_
          rw [hm.trans hmax]
          exact List.mem_cons_self x l
      · exact Or.inr (List.mem_cons_of_mem x hm)

theorem series_min_eq_none_iff (l : List Nat) : series_min l = none ↔ l = [] := by
  cases l with
  | nil => simp [series_min]
  | cons a l =>
    simp only [series_min, List.foldl_cons]
    rw [foldl_min_some]
    simp

theorem series_max_eq_none_iff (l : List Nat) : series_max l = none ↔ l = [] := by
  cases l with
  | nil => simp [series_max]
  | cons a l =>
    simp only [series_max, List.foldl_cons]
    rw [foldl_max_some]
    simp

theorem series_min_spec (l : List Nat) (m : Nat) (h : series_min l = some m) :
    (∀ x ∈ l, m ≤ x) ∧ m ∈ l := by
  cases l with
  | nil => simp [series_min] at h
  | cons a l =>
    simp only [series_min, List.foldl_cons] at h
    rw [foldl_min_some] at h
    injection h with h
    subst h
    rcases foldl_min_facts l a with ⟨hall, hle, hmem⟩
    constructor
    · intro x hx
      rcases List.mem_cons.1 hx with rfl | hx
      · exact hle
      · exact hall x hx
    · rcases hmem with hm | hm
      · rw [hm]
        exact List.mem_cons_self a l
      · exact List.mem_cons_of_mem a hm

theorem series_max_spec (l : List Nat) (m : Nat) (h : series_max l = some m) :
    (∀ x ∈ l, x ≤ m) ∧ m ∈ l := by
  cases l with
  | nil => simp [series_max] at h
  | cons a l =>
    simp only [series_max, List.foldl_cons] at h
    rw [foldl_max_some] at h
    injection h with h
    subst h
    rcases foldl_max_facts l a with ⟨hall, hle, hmem⟩
    constructor
    · intro x hx
      rcases List.mem_cons.1 hx with rfl | hx
      · exact hle
      · exact hall x hx
    · rcases hmem with hm | hm
      · rw [hm]
        exact List.mem_cons_self a l
      · exact List.mem_cons_of_mem a hm

theorem min_all_le (df : List Rec) (lo : Nat) (h : min_all df = some lo) :
    (∀ x ∈ order_dates df, lo ≤ x) ∧ (∀ x ∈ ship_dates df, lo ≤ x) ∧
      (lo ∈ order_dates df ∨ lo ∈ ship_dates df) := by
  cases ho : series_min (order_dates df) with
  | none => simp [min_all, pyMin, ho] at h
  | some mo =>
    cases hs : series_min (ship_dates df) with
    | none =>
      simp [min_all, pyMin, ho, hs] at h
      subst h
      rcases series_min_spec _ _ ho with ⟨hall, hmem⟩
      have hempty : ship_dates df = [] := (series_min_eq_none_iff _).1 hs
      exact ⟨hall, by simp [hempty], Or.inl hmem⟩
    | some ms =>
      simp [min_all, pyMin, ho, hs] at h
      subst h
      rcases series_min_spec _ _ ho with ⟨hallo, hmemo⟩
      rcases series_min_spec _ _ hs with ⟨halls, hmems⟩
      refine ⟨fun x hx => le_trans (Nat.min_le_left mo ms) (hallo x hx),
              fun x hx => le_trans (Nat.min_le_right mo ms) (halls x hx), ?_⟩
      rcases Nat.le_total mo ms with hle | hle
      · have hm2 : Nat.min mo ms = mo := by
          show (if mo ≤ ms then mo else ms) = mo
          split <;> omega
        rw [hm2]
        exact Or.inl hmemo
      · have hm2 : Nat.min mo ms = ms := by
          show (if mo ≤ ms then mo else ms) = ms
          split <;> omega
        rw [hm2]
        exact Or.inr hmems

theorem max_all_ge (df : List Rec) (hi : Nat) (h : max_all df = some hi) :
    (∀ x ∈ order_dates df, x ≤ hi) ∧ (∀ x ∈ ship_dates df, x ≤ hi) ∧
      (hi ∈ order_dates df ∨ hi ∈ ship_dates df) := by
  cases ho : series_max (order_dates df) with
  | none => simp [max_all, pyMax, ho] at h
  | some mo =>
    cases hs : series_max (ship_dates df) with
    | none =>
      simp [max_all, pyMax, ho, hs] at h
      subst h
      rcases series_max_spec _ _ ho with ⟨hall, hmem⟩
      have hempty : ship_dates df = [] := (series_max_eq_none_iff _).1 hs
      exact ⟨hall, by simp [hempty], Or.inl hmem⟩
    | some ms =>
      simp [max_all, pyMax, ho, hs] at h
      subst h
      rcases series_max_spec _ _ ho with ⟨hallo, hmemo⟩
      rcases series_max_spec _ _ hs with ⟨halls, hmems⟩
      refine ⟨fun x hx => le_trans (hallo x hx) (Nat.le_max_left mo ms),
              fun x hx => le_trans (halls x hx) (Nat.le_max_right mo ms), ?_⟩
      rcases Nat.le_total mo ms with hle | hle
      · have hm2 : Nat.max mo ms = ms := by
          show (if mo ≤ ms then ms else mo) = ms
          split <;> omega
        rw [hm2]
        exact Or.inr hmems
      · have hm2 : Nat.max mo ms = mo := by
          show (if mo ≤ ms then ms else mo) = mo
          split <;> omega
        rw [hm2]
        exact Or.inl hmemo

theorem min_all_none_iff (df : List Rec) :
    min_all df = none ↔ order_dates df = [] := by
  cases ho : series_min (order_dates df) with
  | none =>
    simp only [min_all, ho, pyMin]
    simp [(series_min_eq_none_iff _).1 ho]
  | some mo =>
    have hne : order_dates df ≠ [] := by
      intro he
      rw [(series_min_eq_none_iff _).2 he] at ho
      exact Option.noConfusion ho
    cases hs : series_min (ship_dates df) <;>
      simp [min_all, pyMin, ho, hs, hne]

theorem max_all_none_iff (df : List Rec) :
    max_all df = none ↔ order_dates df = [] := by
  cases ho : series_max (order_dates df) with
  | none =>
    simp only [max_all, ho, pyMax]
    simp [(series_max_eq_none_iff _).1 ho]
  | some mo =>
    have hne : order_dates df ≠ [] := by
      intro he
      rw [(series_max_eq_none_iff _).2 he] at ho
      exact Option.noConfusion ho
    cases hs : series_max (ship_dates df) <;>
      simp [max_all, pyMax, ho, hs, hne]

theorem min_all_le_max_all (df : List Rec) (lo hi : Nat)
    (hmin : min_all df = some lo) (hmax : max_all df = some hi) : lo ≤ hi := by
  rcases min_all_le df lo hmin with ⟨ho, hs, hmem⟩
  rcases max_all_ge df hi hmax with ⟨ho2, hs2, hmem2⟩
  rcases hmem with hm | hm
  · exact ho2 lo hm
  · exact hs2 lo hm

theorem map_except_ok_length (f : α → Except ε β) (l : List α) (out : List β)
    (h : map_except f l = .ok out) : out.length = l.length := by
  induction l generalizing out with
  | nil =>
    simp only [map_except] at h
    injection h with h
    simp [← h]
  | cons a l ih =>
    simp only [map_except] at h
    cases hfa : f a with
    | error e => rw [hfa] at h; exact Except.noConfusion h
    | ok b =>
      rw [hfa] at h
      cases hml : map_except f l with
      | error e => rw [hml] at h; exact Except.noConfusion h
      | ok bs =>
        rw [hml] at h
        injection h with h
        rw [← h]
        simp [ih bs hml]

theorem map_except_ok_get (f : α → Except ε β) (l : List α) (out : List β)
    (h : map_except f l = .ok out) :
    ∀ i, ∀ hi : i < l.length, ∀ hi2 : i < out.length,
      f (l.get ⟨i, hi⟩) = .ok (out.get ⟨i, hi2⟩) := by
  induction l generalizing out with
  | nil => intro i hi; simp at hi
  | cons a l ih =>
    simp only [map_except] at h
    cases hfa : f a with
    | error e => rw [hfa] at h; exact Except.noConfusion h
    | ok b =>
      rw [hfa] at h
      cases hml : map_except f l with
      | error e => rw [hml] at h; exact Except.noConfusion h
      | ok bs =>
        rw [hml] at h
        injection h with h
        subst h
        intro i hi hi2
        cases i with
        | zero => exact hfa
        | succ i =>
          exact ih bs hml i (by simp only [List.length_cons] at hi; omega)
            (by simp only [List.length_cons] at hi2; omega)

theorem map_except_total (f : α → Except ε β) (l : List α)
    (h : ∀ a ∈ l, ∃ b, f a = .ok b) :
    ∃ out, map_except f l = .ok out := by
  induction l with
  | nil => exact ⟨[], rfl⟩
  | cons a l ih =>
    rcases h a (List.mem_cons_self _ _) with ⟨b, hb⟩
    rcases ih (fun x hx => h x (List.mem_cons_of_mem _ hx)) with ⟨bs, hbs⟩
    refine ⟨b :: bs, ?_⟩
    simp only [map_except]
    rw [hb, hbs]

theorem enum1_length (k : Nat) (l : List α) : (enum1 k l).length = l.length := by
  induction l generalizing k with
  | nil => rfl
  | cons a l ih => simp [enum1, ih]

theorem enum1_get (k : Nat) (l : List α) :
    ∀ i, ∀ hi : i < (enum1 k l).length, ∀ hi2 : i < l.length,
      (enum1 k l).get ⟨i, hi⟩ = (k + i, l.get ⟨i, hi2⟩) := by
  induction l generalizing k with
  | nil => intro i hi; simp [enum1] at hi
  | cons a l ih =>
    intro i hi hi2
    cases i with
    | zero => simp [enum1]
    | succ i =>
      simp only [enum1, List.get]
      rw [ih (k + 1)]
      · simp only [Prod.mk.injEq]
        exact ⟨by omega, trivial⟩
      · simp only [List.length_cons] at hi2
        omega

theorem enum1_map_fst (k : Nat) (l : List α) :
    (enum1 k l).map Prod.fst = List.range' k l.length := by
  induction l generalizing k with
  | nil => rfl
  | cons a l ih => simp [enum1, List.range'_succ, ih]

theorem enum1_map_snd (k : Nat) (l : List α) :
    (enum1 k l).map Prod.snd = l := by
  induction l generalizing k with
  | nil => rfl
  | cons a l ih => simp [enum1, ih]

theorem mem_dim_region_of (df : List Rec) (r : Rec) (hr : r ∈ df) :
    ∃ row ∈ dim_region_of df,
      (row.country, row.region, row.state, row.city, row.postal_code) =
        geo_tuple r := by
  have h1 : geo_tuple r ∈ df.map geo_tuple := List.mem_map_of_mem _ hr
  rcases dedupByKey_covers id _ _ h1 with ⟨b, hb, hkey⟩
  have hb2 : geo_tuple r ∈ iSort geo_le (dedupByKey id (df.map geo_tuple)) := by
    rw [mem_iSort]
    simp only [id] at hkey
    exact hkey ▸ hb
  have hb3 : geo_tuple r ∈
      (enum1 1 (iSort geo_le (dedupByKey id (df.map geo_tuple)))).map Prod.snd := by
    rw [enum1_map_snd]
    exact hb2
  rcases List.mem_map.1 hb3 with ⟨p, hp, hps⟩
  refine ⟨{ region_key := p.1, country := p.2.1, region := p.2.2.1,
            state := p.2.2.2.1, city := p.2.2.2.2.1,
            postal_code := p.2.2.2.2.2 }, ?_, ?_⟩
  · exact List.mem_map_of_mem _ hp
  · simpa using hps

theorem geo_to_key_hit (df : List Rec) (r : Rec) (hr : r ∈ df) :
    ∃ k, geo_to_key (dim_region_of df) (geo_tuple r) = some k := by
  rcases mem_dim_region_of df r hr with ⟨row, hrow, htup⟩
  have hne : geo_to_key (dim_region_of df) (geo_tuple r) ≠ none := by
    rw [geo_to_key]
    intro hnone
    rw [dict_of_eq_none_iff] at hnone
    exact hnone ((row.country, row.region, row.state, row.city,
      row.postal_code), row.region_key) (List.mem_map_of_mem _ hrow) htup
  cases h : geo_to_key (dim_region_of df) (geo_tuple r) with
  | none => exact absurd h hne
  | some k => exact ⟨k, rfl⟩

theorem mem_dim_customer_of (df : List Rec) (r : Rec) (hr : r ∈ df) :
    ∃ row ∈ dim_customer_of df, row.customer_id = r.customer_id := by
  have h1 : cust_tuple r ∈ df.map cust_tuple := List.mem_map_of_mem _ hr
  rcases dedupByKey_covers id _ _ h1 with ⟨b, hb, hkey⟩
  have hb2 : b ∈ iSort (fun a b => strLe a.1 b.1)
      (dedupByKey id (df.map cust_tuple)) := (mem_iSort _ _ _).2 hb
  have hb3 : b ∈ (enum1 1 (iSort (fun a b => strLe a.1 b.1)
      (dedupByKey id (df.map cust_tuple)))).map Prod.snd := by
    rw [enum1_map_snd]
    exact hb2
  rcases List.mem_map.1 hb3 with ⟨p, hp, hps⟩
  refine ⟨{ customer_key := p.1, customer_id := p.2.1,
            customer_name := p.2.2.1, segment := p.2.2.2 }, ?_, ?_⟩
  · exact List.mem_map_of_mem _ hp
  · simp only [id] at hkey
    show p.2.1 = r.customer_id
    rw [hps, hkey]
    rfl

theorem cust_to_key_hit (df : List Rec) (r : Rec) (hr : r ∈ df) :
    ∃ k, cust_to_key (dim_customer_of df) r.customer_id = some k := by
  rcases mem_dim_customer_of df r hr with ⟨row, hrow, hid⟩
  have hne : cust_to_key (dim_customer_of df) r.customer_id ≠ none := by
    rw [cust_to_key]
    intro hnone
    rw [dict_of_eq_none_iff] at hnone
    exact hnone (row.customer_id, row.customer_key)
      (List.mem_map_of_mem _ hrow) hid
  cases h : cust_to_key (dim_customer_of df) r.customer_id with
  | none => exact absurd h hne
  | some k => exact ⟨k, rfl⟩

theorem mem_dim_product_of (df : List Rec) (r : Rec) (hr : r ∈ df) :
    ∃ row ∈ dim_product_of df, row.product_id = r.product_id := by
  have h1 : prod_tuple r ∈ df.map prod_tuple := List.mem_map_of_mem _ hr
  rcases dedupByKey_covers id _ _ h1 with ⟨b, hb, hkey⟩
  have hb2 : b ∈ iSort (fun a b => strLe a.1 b.1)
      (dedupByKey id (df.map prod_tuple)) := (mem_iSort _ _ _).2 hb
  have hb3 : b ∈ (enum1 1 (iSort (fun a b => strLe a.1 b.1)
      (dedupByKey id (df.map prod_tuple)))).map Prod.snd := by
    rw [enum1_map_snd]
    exact hb2
  rcases List.mem_map.1 hb3 with ⟨p, hp, hps⟩
  refine ⟨{ product_key := p.1, product_id := p.2.1, category := p.2.2.1,
            sub_category := p.2.2.2, product_name := mode_name df p.2.1 },
          ?_, ?_⟩
  · exact List.mem_map_of_mem _ hp
  · simp only [id] at hkey
    show p.2.1 = r.product_id
    rw [hps, hkey]
    rfl

theorem prod_to_key_hit (df : List Rec) (r : Rec) (hr : r ∈ df) :
    ∃ k, prod_to_key (dim_product_of df) r.product_id = some k := by
  rcases mem_dim_product_of df r hr with ⟨row, hrow, hid⟩
  have hne : prod_to_key (dim_product_of df) r.product_id ≠ none := by
    rw [prod_to_key]
    intro hnone
    rw [dict_of_eq_none_iff] at hnone
    exact hnone (row.product_id, row.product_key)
      (List.mem_map_of_mem _ hrow) hid
  cases h : prod_to_key (dim_product_of df) r.product_id with
  | none => exact absurd h hne
  | some k => exact ⟨k, rfl⟩

theorem mem_dim_ship_mode_of (df : List Rec) (r : Rec) (hr : r ∈ df) :
    ∃ row ∈ dim_ship_mode_of df, row.ship_mode = r.ship_mode := by
  have h1 : r.ship_mode ∈ df.map (fun x => x.ship_mode) :=
    List.mem_map_of_mem _ hr
  rcases dedupByKey_covers id _ _ h1 with ⟨b, hb, hkey⟩
  have hb2 : b ∈ iSort strLe
      (dedupByKey id (df.map fun x => x.ship_mode)) := (mem_iSort _ _ _).2 hb
  have hb3 : b ∈ (enum1 1 (iSort strLe
      (dedupByKey id (df.map fun x => x.ship_mode)))).map Prod.snd := by
    rw [enum1_map_snd]
    exact hb2
  rcases List.mem_map.1 hb3 with ⟨p, hp, hps⟩
  refine ⟨{ ship_mode_key := p.1, ship_mode := p.2 }, ?_, ?_⟩
  · exact List.mem_map_of_mem _ hp
  · simp only [id] at hkey
    show p.2 = r.ship_mode
    rw [hps, hkey]

theorem ship_to_key_hit (df : List Rec) (r : Rec) (hr : r ∈ df) :
    ∃ k, ship_to_key (dim_ship_mode_of df) r.ship_mode = some k := by
  rcases mem_dim_ship_mode_of df r hr with ⟨row, hrow, hid⟩
  have hne : ship_to_key (dim_ship_mode_of df) r.ship_mode ≠ none := by
    rw [ship_to_key]
    intro hnone
    rw [dict_of_eq_none_iff] at hnone
    exact hnone (row.ship_mode, row.ship_mode_key)
      (List.mem_map_of_mem _ hrow) hid
  cases h : ship_to_key (dim_ship_mode_of df) r.ship_mode with
  | none => exact absurd h hne
  | some k => exact ⟨k, rfl⟩

theorem full_date_mkDateRow (o : Nat) : (mkDateRow o).full_date = o := rfl

theorem date_key_mkDateRow (o : Nat) :
    (mkDateRow o).date_key = date_key (dateOfOrd o) := rfl

theorem date_to_key_hit (lo hi o : Nat) (h1 : lo ≤ o) (h2 : o ≤ hi) :
    date_to_key (dim_date_of lo hi) o = some (date_key (dateOfOrd o)) := by
  rw [date_to_key]
  apply dict_of_unique
  · rw [dim_date_of, List.map_map, List.pairwise_map]
    exact (List.pairwise_lt_range _).imp
      (fun hij => by
        simp only [Function.comp, full_date_mkDateRow]
        omega)
  · rw [dim_date_of, List.map_map]
    refine List.mem_map.2 ⟨o - lo, ?_, ?_⟩
    · rw [List.mem_range]
      omega
    · have heq : lo + (o - lo) = o := by omega
      simp only [Function.comp, full_date_mkDateRow, date_key_mkDateRow, heq]

/-- The per-row fact constructor with all five lookups of `build_star_schema`. -/
def fact_fn (df : List Rec) (lo hi : Nat) : Rec → Except String FactRow :=
  fact_row (date_to_key (dim_date_of lo hi)) (cust_to_key (dim_customer_of df))
    (prod_to_key (dim_product_of df)) (ship_to_key (dim_ship_mode_of df))
    (geo_to_key (dim_region_of df))

/-- The schema `build_star_schema` returns on success. -/
def mk_star (df : List Rec) (lo hi : Nat) (fact0 : List FactRow) : StarSchema :=
  { dim_date := dim_date_of lo hi, dim_customer := dim_customer_of df,
    dim_product := dim_product_of df, dim_region := dim_region_of df,
    dim_ship_mode := dim_ship_mode_of df,
    fact_sales := (enum1 1 fact0).map fun p => { p.2 with sales_id := p.1 } }

theorem build_star_schema_eq (df : List Rec) (lo hi : Nat)
    (hlo : min_all df = some lo) (hhi : max_all df = some hi) :
    build_star_schema df =
      match map_except (fact_fn df lo hi) df with
      | .error e => .error e
      | .ok fact0 => .ok (mk_star df lo hi fact0) := by
  unfold build_star_schema
  rw [hlo, hhi]
  rfl

theorem build_error_of_min_none (df : List Rec) (h : min_all df = none) :
    build_star_schema df = .error "Neither start nor end can be NaT" := by
  unfold build_star_schema
  rw [h]

theorem build_error_of_max_none (df : List Rec) (lo : Nat)
    (hlo : min_all df = some lo) (h : max_all df = none) :
    build_star_schema df = .error "Neither start nor end can be NaT" := by
  unfold build_star_schema
  rw [hlo, h]

theorem build_star_schema_ok (df : List Rec) (lo hi : Nat)
    (hlo : min_all df = some lo) (hhi : max_all df = some hi) :
    ∃ fact0, map_except (fact_fn df lo hi) df = .ok fact0 ∧
      build_star_schema df = .ok (mk_star df lo hi fact0) := by
  have htot : ∀ r ∈ df, ∃ b, fact_fn df lo hi r = .ok b := by
    intro r hr
    rcases geo_to_key_hit df r hr with ⟨k, hk⟩
    cases hfr : fact_fn df lo hi r with
    | error e =>
      exfalso
      unfold fact_fn fact_row at hfr
      rw [hk] at hfr
      exact Except.noConfusion hfr
    | ok b => exact ⟨b, rfl⟩
  rcases map_except_total _ _ htot with ⟨fact0, hf⟩
  refine ⟨fact0, hf, ?_⟩
  rw [build_star_schema_eq df lo hi hlo hhi, hf]

theorem build_star_schema_ok_elim (df : List Rec) (s : StarSchema)
    (h : build_star_schema df = .ok s) :
    ∃ lo hi fact0, min_all df = some lo ∧ max_all df = some hi ∧
      map_except (fact_fn df lo hi) df = .ok fact0 ∧
      s = mk_star df lo hi fact0 := by
  cases hlo : min_all df with
  | none =>
    rw [build_error_of_min_none df hlo] at h
    exact Except.noConfusion h
  | some lo =>
    cases hhi : max_all df with
    | none =>
      rw [build_error_of_max_none df lo hlo hhi] at h
      exact Except.noConfusion h
    | some hi =>
      rw [build_star_schema_eq df lo hi hlo hhi] at h
      cases hme : map_except (fact_fn df lo hi) df with
      | error e =>
        rw [hme] at h
        exact Except.noConfusion h
      | ok fact0 =>
        rw [hme] at h
        injection h with h
        exact ⟨lo, hi, fact0, rfl, rfl, hme, h.symm⟩

theorem fact_row_ok_elim (d2k : Nat → Option Nat)
    (c2k p2k s2k : String → Option Nat)
    (g2k : String × String × String × String × String → Option Nat)
    (r : Rec) (b : FactRow)
    (h : fact_row d2k c2k p2k s2k g2k r = .ok b) :
    b.sales_id = 0 ∧ b.row_id = r.row_id ∧ b.order_id = r.order_id ∧
    b.order_date_key = r.order_date.bind d2k ∧
    b.ship_date_key = r.ship_date.bind d2k ∧
    b.customer_key = c2k r.customer_id ∧
    b.product_key = p2k r.product_id ∧
    g2k (geo_tuple r) = some b.region_key ∧
    b.ship_mode_key = s2k r.ship_mode ∧
    b.sales_amount = r.sales := by
  unfold fact_row at h
  cases hg : g2k (geo_tuple r) with
  | none =>
    rw [hg] at h
    exact Except.noConfusion h
  | some rk =>
    rw [hg] at h
    injection h with h
    subst h
    exact ⟨rfl, rfl, rfl, rfl, rfl, rfl, rfl, rfl, rfl, rfl⟩

theorem mk_star_fact_length (df : List Rec) (lo hi : Nat) (fact0 : List FactRow)
    (hf : map_except (fact_fn df lo hi) df = .ok fact0) :
    (mk_star df lo hi fact0).fact_sales.length = df.length := by
  show ((enum1 1 fact0).map _).length = df.length
  rw [List.length_map, enum1_length, map_except_ok_length _ _ _ hf]

theorem mk_star_fact_get (df : List Rec) (lo hi : Nat) (fact0 : List FactRow)
    (hf : map_except (fact_fn df lo hi) df = .ok fact0)
    (i : Nat) (h1 : i < df.length) :
    ∃ h2 : i < (mk_star df lo hi fact0).fact_sales.length, ∃ b : FactRow,
      fact_fn df lo hi (df.get ⟨i, h1⟩) = .ok b ∧
      (mk_star df lo hi fact0).fact_sales.get ⟨i, h2⟩ =
        { b with sales_id := 1 + i } := by
  have hlen := mk_star_fact_length df lo hi fact0 hf
  have h2 : i < (mk_star df lo hi fact0).fact_sales.length := by omega
  have hlen0 : fact0.length = df.length := map_except_ok_length _ _ _ hf
  have hi0 : i < fact0.length := by omega
  have hienum : i < (enum1 1 fact0).length := by rw [enum1_length]; omega
  refine ⟨h2, fact0.get ⟨i, hi0⟩, map_except_ok_get _ _ _ hf i h1 hi0, ?_⟩
  show ((enum1 1 fact0).map
      (fun p : Nat × FactRow =>
        ({ p.2 with sales_id := p.1 } : FactRow))).get ⟨i, h2⟩ =
    { fact0.get ⟨i, hi0⟩ with sales_id := 1 + i }
  rw [List.get_map, enum1_get 1 fact0 i hienum hi0]

theorem fact_idx_elim (df : List Rec) (s : StarSchema)
    (h : build_star_schema df = .ok s) :
    ∃ lo hi, min_all df = some lo ∧ max_all df = some hi ∧
      s.dim_date = dim_date_of lo hi ∧ s.dim_customer = dim_customer_of df ∧
      s.dim_product = dim_product_of df ∧ s.dim_region = dim_region_of df ∧
      s.dim_ship_mode = dim_ship_mode_of df ∧
      s.fact_sales.length = df.length ∧
      ∀ i, ∀ h1 : i < df.length, ∀ h2 : i < s.fact_sales.length,
        (s.fact_sales.get ⟨i, h2⟩).sales_id = i + 1 ∧
        (s.fact_sales.get ⟨i, h2⟩).row_id = (df.get ⟨i, h1⟩).row_id ∧
        (s.fact_sales.get ⟨i, h2⟩).order_id = (df.get ⟨i, h1⟩).order_id ∧
        (s.fact_sales.get ⟨i, h2⟩).order_date_key =
          (df.get ⟨i, h1⟩).order_date.bind (date_to_key (dim_date_of lo hi)) ∧
        (s.fact_sales.get ⟨i, h2⟩).ship_date_key =
          (df.get ⟨i, h1⟩).ship_date.bind (date_to_key (dim_date_of lo hi)) ∧
        (s.fact_sales.get ⟨i, h2⟩).customer_key =
          cust_to_key (dim_customer_of df) (df.get ⟨i, h1⟩).customer_id ∧
        (s.fact_sales.get ⟨i, h2⟩).product_key =
          prod_to_key (dim_product_of df) (df.get ⟨i, h1⟩).product_id ∧
        geo_to_key (dim_region_of df) (geo_tuple (df.get ⟨i, h1⟩)) =
          some (s.fact_sales.get ⟨i, h2⟩).region_key ∧
        (s.fact_sales.get ⟨i, h2⟩).ship_mode_key =
          ship_to_key (dim_ship_mode_of df) (df.get ⟨i, h1⟩).ship_mode ∧
        (s.fact_sales.get ⟨i, h2⟩).sales_amount = (df.get ⟨i, h1⟩).sales := by
  rcases build_star_schema_ok_elim df s h with ⟨lo, hi, fact0, hlo, hhi, hfe, hs⟩
  subst hs
  refine ⟨lo, hi, hlo, hhi, rfl, rfl, rfl, rfl, rfl,
    mk_star_fact_length df lo hi fact0 hfe, ?_⟩
  intro i h1 h2
  rcases mk_star_fact_get df lo hi fact0 hfe i h1 with ⟨h2b, b, hb, hget⟩
  rcases fact_row_ok_elim _ _ _ _ _ _ _ hb with
    ⟨hsid, hrow, hoid, hodk, hsdk, hck, hpk, hrk, hsmk, hsal⟩
  rw [hget]
  refine ⟨by show 1 + i = i + 1; omega, hrow, hoid, hodk, hsdk, hck, hpk,
    ?_, hsmk, hsal⟩
  exact hrk

theorem mkDateRow_mem (lo hi o : Nat) (h1 : lo ≤ o) (h2 : o ≤ hi) :
    mkDateRow o ∈ dim_date_of lo hi := by
  rw [dim_date_of]
  refine List.mem_map.2 ⟨o - lo, ?_, ?_⟩
  · rw [List.mem_range]
    omega
  · have heq : lo + (o - lo) = o := by omega
    rw [heq]

theorem date_in_range (df : List Rec) (lo hi : Nat)
    (hlo : min_all df = some lo) (hhi : max_all df = some hi)
    (r : Rec) (hr : r ∈ df) :
    (∀ o, r.order_date = some o → lo ≤ o ∧ o ≤ hi) ∧
    (∀ o, r.ship_date = some o → lo ≤ o ∧ o ≤ hi) := by
  constructor
  · intro o ho
    have hoin : o ∈ order_dates df := List.mem_filterMap.2 ⟨r, hr, ho⟩
    exact ⟨(min_all_le df lo hlo).1 o hoin, (max_all_ge df hi hhi).1 o hoin⟩
  · intro o ho
    have hoin : o ∈ ship_dates df := List.mem_filterMap.2 ⟨r, hr, ho⟩
    exact ⟨(min_all_le df lo hlo).2.1 o hoin, (max_all_ge df hi hhi).2.1 o hoin⟩

/-- C1 (corrected): in `build_star_schema` only the composite region-tuple
lookup (a plain `dict` subscript) aborts the build on a missing key; the
order-date, ship-date, customer, product and ship-mode lookups go through
`Series.map`, which silently yields a null key instead of failing.  On any
successful build a null foreign key arises exactly from a missing (`NaT`)
order or ship date, while the customer, product and ship-mode keys of
every fact row always resolve (their natural keys cannot be absent from
lookups derived from the same rows). -/
theorem C1_null_keys_instead_of_abort (df : List Rec) (s : StarSchema)
    (h : build_star_schema df = .ok s) :
    ∀ i, ∀ h1 : i < df.length, ∀ h2 : i < s.fact_sales.length,
      ((s.fact_sales.get ⟨i, h2⟩).order_date_key = none ↔
        (df.get ⟨i, h1⟩).order_date = none) ∧
      ((s.fact_sales.get ⟨i, h2⟩).ship_date_key = none ↔
        (df.get ⟨i, h1⟩).ship_date = none) ∧
      (s.fact_sales.get ⟨i, h2⟩).customer_key ≠ none ∧
      (s.fact_sales.get ⟨i, h2⟩).product_key ≠ none ∧
      (s.fact_sales.get ⟨i, h2⟩).ship_mode_key ≠ none := by
  rcases fact_idx_elim df s h with
    ⟨lo, hi, hlo, hhi, hdd, hdc, hdp, hdr, hds, hlen, hspec⟩
  intro i h1 h2
  rcases hspec i h1 h2 with ⟨_, _, _, hodk, hsdk, hck, hpk, hrk, hsmk, _⟩
  have hrmem : df.get ⟨i, h1⟩ ∈ df := List.get_mem df i h1
  rcases date_in_range df lo hi hlo hhi _ hrmem with ⟨hor, hsh⟩
  refine ⟨?_, ?_, ?_, ?_, ?_⟩
  · rw [hodk]
    cases ho : (df.get ⟨i, h1⟩).order_date with
    | none => simp
    | some o =>
      rcases hor o ho with ⟨hb1, hb2⟩
      simp only [Option.some_bind]
      rw [date_to_key_hit lo hi o hb1 hb2]
      simp
  · rw [hsdk]
    cases ho : (df.get ⟨i, h1⟩).ship_date with
    | none => simp
    | some o =>
      rcases hsh o ho with ⟨hb1, hb2⟩
      simp only [Option.some_bind]
      rw [date_to_key_hit lo hi o hb1 hb2]
      simp
  · rw [hck]
    rcases cust_to_key_hit df _ hrmem with ⟨k, hk⟩
    rw [hk]
    simp
  · rw [hpk]
    rcases prod_to_key_hit df _ hrmem with ⟨k, hk⟩
    rw [hk]
    simp
  · rw [hsmk]
    rcases ship_to_key_hit df _ hrmem with ⟨k, hk⟩
    rw [hk]
    simp

/-- A record set on which the build succeeds although the second record's
order date is missing. -/
def rsNullKey : List Rec :=
  [rec0, { rec0 with row_id := 2, order_date := none, ship_date := some 1 }]

/-- The star schema `build_star_schema` returns on `rsNullKey`. -/
def cexSchema : StarSchema :=
  (build_star_schema rsNullKey).toOption.getD ⟨[], [], [], [], [], []⟩

/-- The star schema `build_star_schema` returns on `[rec0]`. -/
def schema1 : StarSchema :=
  (build_star_schema [rec0]).toOption.getD ⟨[], [], [], [], [], []⟩

theorem C1_null_keys_witness :
    ∃ h2 : 0 < schema1.fact_sales.length,
      ((schema1.fact_sales.get ⟨0, h2⟩).order_date_key = none ↔
        ([rec0].get ⟨0, by decide⟩).order_date = none) ∧
      ((schema1.fact_sales.get ⟨0, h2⟩).ship_date_key = none ↔
        ([rec0].get ⟨0, by decide⟩).ship_date = none) ∧
      (schema1.fact_sales.get ⟨0, h2⟩).customer_key ≠ none ∧
      (schema1.fact_sales.get ⟨0, h2⟩).product_key ≠ none ∧
      (schema1.fact_sales.get ⟨0, h2⟩).ship_mode_key ≠ none := by
  have hb : build_star_schema [rec0] = .ok schema1 := rfl
  have h2 : 0 < schema1.fact_sales.length := by
    rw [show schema1.fact_sales.length = 1 from rfl]
    omega
  exact ⟨h2, C1_null_keys_instead_of_abort [rec0] schema1 hb 0 (by decide) h2⟩

/-- C1 counterexample: on `rsNullKey` the build succeeds (no loud failure)
and the second fact row carries a null order-date key — its order date is
the missing marker, which is absent from the date lookup, yet nothing
aborts; the fact table is produced with a null foreign key in it. -/
theorem C1_null_keys_counterexample :
    build_star_schema rsNullKey = .ok cexSchema ∧
    rsNullKey.map (fun r => r.order_date) = [some 0, none] ∧
    cexSchema.fact_sales.map (fun f => f.order_date_key) =
      [some 16770922, none] := ⟨rfl, rfl, rfl⟩

/-- C2 (corrected): on a record set accepted by the build in which every
order and ship date is present, every foreign key of every fact row
resolves into its target dimension: the date keys into `dim_date`, the
customer, product, region and ship-mode keys into their dimensions.
(Without the present-dates restriction a fact row of an accepted build can
carry a null date key, which is in no dimension's key set.) -/
theorem C2_referential_completeness (df : List Rec) (s : StarSchema)
    (hdates : ∀ r ∈ df, r.order_date ≠ none ∧ r.ship_date ≠ none)
    (h : build_star_schema df = .ok s) :
    ∀ f ∈ s.fact_sales,
      (∃ row ∈ s.dim_date, f.order_date_key = some row.date_key) ∧
      (∃ row ∈ s.dim_date, f.ship_date_key = some row.date_key) ∧
      (∃ row ∈ s.dim_customer, f.customer_key = some row.customer_key) ∧
      (∃ row ∈ s.dim_product, f.product_key = some row.product_key) ∧
      (∃ row ∈ s.dim_region, f.region_key = row.region_key) ∧
      (∃ row ∈ s.dim_ship_mode, f.ship_mode_key = some row.ship_mode_key) := by
  rcases fact_idx_elim df s h with
    ⟨lo, hi, hlo, hhi, hdd, hdc, hdp, hdr, hds, hlen, hspec⟩
  intro f hf
  rcases List.mem_iff_get.1 hf with ⟨⟨i, h2⟩, hgf⟩
  have h1 : i < df.length := by omega
  rcases hspec i h1 h2 with ⟨_, _, _, hodk, hsdk, hck, hpk, hrk, hsmk, _⟩
  subst hgf
  have hrmem : df.get ⟨i, h1⟩ ∈ df := List.get_mem df i h1
  rcases date_in_range df lo hi hlo hhi _ hrmem with ⟨hor, hsh⟩
  rcases hdates _ hrmem with ⟨hone, hstwo⟩
  rw [hdd, hdc, hdp, hdr, hds]
  refine ⟨?_, ?_, ?_, ?_, ?_, ?_⟩
  · rcases Option.ne_none_iff_exists'.1 hone with ⟨o, ho⟩
    rcases hor o ho with ⟨hb1, hb2⟩
    refine ⟨mkDateRow o, mkDateRow_mem lo hi o hb1 hb2, ?_⟩
    rw [hodk, ho, Option.some_bind, date_to_key_hit lo hi o hb1 hb2]
    rfl
  · rcases Option.ne_none_iff_exists'.1 hstwo with ⟨o, ho⟩
    rcases hsh o ho with ⟨hb1, hb2⟩
    refine ⟨mkDateRow o, mkDateRow_mem lo hi o hb1 hb2, ?_⟩
    rw [hsdk, ho, Option.some_bind, date_to_key_hit lo hi o hb1 hb2]
    rfl
  · rcases cust_to_key_hit df _ hrmem with ⟨k, hk⟩
    have hmem := dict_of_mem _ _ _ hk
    rcases List.mem_map.1 hmem with ⟨row, hrow, hpair⟩
    refine ⟨row, hrow, ?_⟩
    rw [hck, hk]
    rw [Prod.mk.injEq] at hpair
    rw [hpair.2]
  · rcases prod_to_key_hit df _ hrmem with ⟨k, hk⟩
    have hmem := dict_of_mem _ _ _ hk
    rcases List.mem_map.1 hmem with ⟨row, hrow, hpair⟩
    refine ⟨row, hrow, ?_⟩
    rw [hpk, hk]
    rw [Prod.mk.injEq] at hpair
    rw [hpair.2]
  · have hmem := dict_of_mem _ _ _ hrk
    rcases List.mem_map.1 hmem with ⟨row, hrow, hpair⟩
    refine ⟨row, hrow, ?_⟩
    rw [Prod.mk.injEq] at hpair
    rw [hpair.2]
  · rcases ship_to_key_hit df _ hrmem with ⟨k, hk⟩
    have hmem := dict_of_mem _ _ _ hk
    rcases List.mem_map.1 hmem with ⟨row, hrow, hpair⟩
    refine ⟨row, hrow, ?_⟩
    rw [hsmk, hk]
    rw [Prod.mk.injEq] at hpair
    rw [hpair.2]

theorem C2_referential_completeness_witness :
    (∀ r ∈ [rec0], r.order_date ≠ none ∧ r.ship_date ≠ none) ∧
    ∃ f ∈ schema1.fact_sales,
      (∃ row ∈ schema1.dim_date, f.order_date_key = some row.date_key) ∧
      (∃ row ∈ schema1.dim_date, f.ship_date_key = some row.date_key) ∧
      (∃ row ∈ schema1.dim_customer, f.customer_key = some row.customer_key) ∧
      (∃ row ∈ schema1.dim_product, f.product_key = some row.product_key) ∧
      (∃ row ∈ schema1.dim_region, f.region_key = row.region_key) ∧
      (∃ row ∈ schema1.dim_ship_mode,
        f.ship_mode_key = some row.ship_mode_key) := by
  have hd : ∀ r ∈ [rec0], r.order_date ≠ none ∧ r.ship_date ≠ none := by decide
  have hb : build_star_schema [rec0] = .ok schema1 := rfl
  have hlt : 0 < schema1.fact_sales.length := by decide
  have hfmem : schema1.fact_sales.get ⟨0, hlt⟩ ∈ schema1.fact_sales :=
    List.get_mem _ _ _
  exact ⟨hd, _, hfmem, C2_referential_completeness [rec0] schema1 hd hb _ hfmem⟩

/-- C2 counterexample: `rsNullKey` is accepted by the build, yet the second
fact row's order-date key is a null that matches no `dim_date` key, so not
every foreign-key value of every fact row exists in its target dimension's
key set. -/
theorem C2_referential_completeness_counterexample :
    build_star_schema rsNullKey = .ok cexSchema ∧
    ∃ f ∈ cexSchema.fact_sales, ∀ row ∈ cexSchema.dim_date,
      f.order_date_key ≠ some row.date_key := by
  have hlt : 1 < cexSchema.fact_sales.length := by decide
  refine ⟨rfl, cexSchema.fact_sales.get ⟨1, hlt⟩, List.get_mem _ _ _, ?_⟩
  intro row hrow
  have hk : (cexSchema.fact_sales.get ⟨1, hlt⟩).order_date_key = none := rfl
  rw [hk]
  simp

/-- C4 (corrected): on a normalized record set with at least one valid
ORDER date the build succeeds, and the date dimension covers exactly the
calendar days from the global minimum to the global maximum over all
present order and ship dates, one row per day, its row count the inclusive
day-count of that range, with a strictly increasing (hence collision-free)
date key.  "At least one valid order or ship date" is not enough: if every
order date is missing, Python's `min(NaT, x)` is `NaT` and the build
fails, valid ship dates notwithstanding. -/
theorem C4_date_dimension (df : List Rec) (hvalid : order_dates df ≠ []) :
    ∃ s, build_star_schema df = .ok s ∧
    ∃ lo hi, min_all df = some lo ∧ max_all df = some hi ∧
      (∀ o ∈ order_dates df, lo ≤ o ∧ o ≤ hi) ∧
      (∀ o ∈ ship_dates df, lo ≤ o ∧ o ≤ hi) ∧
      (lo ∈ order_dates df ∨ lo ∈ ship_dates df) ∧
      (hi ∈ order_dates df ∨ hi ∈ ship_dates df) ∧
      s.dim_date.length = hi - lo + 1 ∧
      s.dim_date.map (fun row => row.full_date) = List.range' lo (hi - lo + 1) ∧
      (∀ o, lo ≤ o → o ≤ hi →
        (s.dim_date.map (fun row => row.full_date)).count o = 1) ∧
      s.dim_date.Pairwise (fun a b => a.date_key < b.date_key) := by
  have hmo : ∃ mo, series_min (order_dates df) = some mo := by
    cases hx : series_min (order_dates df) with
    | none => exact absurd ((series_min_eq_none_iff _).1 hx) hvalid
    | some mo => exact ⟨mo, rfl⟩
  have hMo : ∃ mo, series_max (order_dates df) = some mo := by
    cases hx : series_max (order_dates df) with
    | none => exact absurd ((series_max_eq_none_iff _).1 hx) hvalid
    | some mo => exact ⟨mo, rfl⟩
  rcases hmo with ⟨mo, hmo⟩
  rcases hMo with ⟨Mo, hMo⟩
  have hlo : ∃ lo, min_all df = some lo := by
    unfold min_all
    rw [hmo]
    cases series_min (ship_dates df) <;> exact ⟨_, rfl⟩
  have hhi : ∃ hi, max_all df = some hi := by
    unfold max_all
    rw [hMo]
    cases series_max (ship_dates df) <;> exact ⟨_, rfl⟩
  rcases hlo with ⟨lo, hlo⟩
  rcases hhi with ⟨hi, hhi⟩
  rcases build_star_schema_ok df lo hi hlo hhi with ⟨fact0, hfe, hbuild⟩
  have hle : lo ≤ hi := min_all_le_max_all df lo hi hlo hhi
  rcases min_all_le df lo hlo with ⟨hlo1, hlo2, hlo3⟩
  rcases max_all_ge df hi hhi with ⟨hhi1, hhi2, hhi3⟩
  refine ⟨mk_star df lo hi fact0, hbuild, lo, hi, hlo, hhi,
    fun o ho => ⟨hlo1 o ho, hhi1 o ho⟩, fun o ho => ⟨hlo2 o ho, hhi2 o ho⟩,
    hlo3, hhi3, ?_, ?_, ?_, ?_⟩
  · show (dim_date_of lo hi).length = hi - lo + 1
    rw [dim_date_of, List.length_map, List.length_range]
  · show ((dim_date_of lo hi).map fun row => row.full_date) = _
    rw [dim_date_of, List.map_map]
    have : ((fun row => row.full_date) ∘ fun i => mkDateRow (lo + i)) =
        fun i => lo + i := rfl
    rw [this, ← List.range'_eq_map_range]
  · intro o ho1 ho2
    show ((dim_date_of lo hi).map fun row => row.full_date).count o = 1
    rw [dim_date_of, List.map_map]
    have heq : ((fun row => row.full_date) ∘ fun i => mkDateRow (lo + i)) =
        fun i => lo + i := rfl
    rw [heq, ← List.range'_eq_map_range]
    refine List.count_eq_one_of_mem (List.nodup_range' lo (hi - lo + 1)) ?_
    rw [List.mem_range'_1]
    omega
  · show (dim_date_of lo hi).Pairwise fun a b => a.date_key < b.date_key
    rw [dim_date_of, List.pairwise_map]
    exact (List.pairwise_lt_range _).imp
      (fun hij => date_key_ord_strict_mono _ _ (by omega))

def rsC4 : List Rec := [{ rec0 with order_date := none }]

/-- C4 counterexample: a record set with a valid ship date but no valid
order date has "at least one valid order or ship date", yet the build
fails — `min(NaT, ship_min)` is `NaT` — so no date dimension is produced
at all, contradicting the claim as stated. -/
theorem C4_date_dimension_counterexample :
    (∃ r ∈ rsC4, r.ship_date ≠ none) ∧
    build_star_schema rsC4 = .error "Neither start nor end can be NaT" := by
  constructor
  · refine ⟨{ rec0 with order_date := none }, by decide, by decide⟩
  · rfl

theorem C4_date_dimension_witness :
    order_dates [rec0] ≠ [] ∧
    ∃ s, build_star_schema [rec0] = .ok s ∧ s.dim_date.length = 1 := by
  have hv : order_dates [rec0] ≠ [] := by decide
  rcases C4_date_dimension [rec0] hv with
    ⟨s, hs, lo, hi, hlo, hhi, _, _, _, _, hlen, _⟩
  refine ⟨hv, s, hs, ?_⟩
  have hss : s = schema1 := by
    have h2 : build_star_schema [rec0] = .ok schema1 := rfl
    rw [hs] at h2
    injection h2
  rw [hss]
  decide

theorem lex2_total (a b : String × String) :
    lex_le strLt strLe a b = true ∨ lex_le strLt strLe b a = true :=
  lex_le_total strLt strLe strLt_connex strLe_total a b

theorem lex2_trans (a b c : String × String)
    (h1 : lex_le strLt strLe a b = true) (h2 : lex_le strLt strLe b c = true) :
    lex_le strLt strLe a c = true :=
  lex_le_trans strLt strLe strLt_connex strLt_trans strLe_trans a b c h1 h2

theorem lex3_total (a b : String × String × String) :
    lex_le strLt (lex_le strLt strLe) a b = true ∨
    lex_le strLt (lex_le strLt strLe) b a = true :=
  lex_le_total strLt _ strLt_connex lex2_total a b

theorem lex3_trans (a b c : String × String × String)
    (h1 : lex_le strLt (lex_le strLt strLe) a b = true)
    (h2 : lex_le strLt (lex_le strLt strLe) b c = true) :
    lex_le strLt (lex_le strLt strLe) a c = true :=
  lex_le_trans strLt _ strLt_connex strLt_trans lex2_trans a b c h1 h2

theorem lex4_total (a b : String × String × String × String) :
    lex_le strLt (lex_le strLt (lex_le strLt strLe)) a b = true ∨
    lex_le strLt (lex_le strLt (lex_le strLt strLe)) b a = true :=
  lex_le_total strLt _ strLt_connex lex3_total a b

theorem lex4_trans (a b c : String × String × String × String)
    (h1 : lex_le strLt (lex_le strLt (lex_le strLt strLe)) a b = true)
    (h2 : lex_le strLt (lex_le strLt (lex_le strLt strLe)) b c = true) :
    lex_le strLt (lex_le strLt (lex_le strLt strLe)) a c = true :=
  lex_le_trans strLt _ strLt_connex strLt_trans lex3_trans a b c h1 h2

theorem geo_le_total (a b : String × String × String × String × String) :
    geo_le a b = true ∨ geo_le b a = true :=
  lex_le_total strLt _ strLt_connex lex4_total a b

theorem geo_le_trans (a b c : String × String × String × String × String)
    (h1 : geo_le a b = true) (h2 : geo_le b c = true) : geo_le a c = true :=
  lex_le_trans strLt _ strLt_connex strLt_trans lex4_trans a b c h1 h2

theorem keys_dense_of {ρ α : Type} (rows : List ρ) (l : List α)
    (f : Nat × α → ρ) (key : ρ → Nat)
    (hrows : rows = (enum1 1 l).map f) (hkey : ∀ p, key (f p) = p.1) :
    rows.map key = List.range' 1 rows.length := by
  subst hrows
  rw [List.map_map, List.length_map, enum1_length]
  have h2 : (key ∘ f) = Prod.fst := funext hkey
  rw [h2, enum1_map_fst]

theorem sorted_cols {ρ α β : Type} (rows : List ρ) (l : List α)
    (f : Nat × α → ρ) (g : ρ → β) (le : α → α → Bool) (R : β → β → Prop)
    (proj : α → β)
    (hrows : rows = (enum1 1 (iSort le l)).map f)
    (hgf : ∀ p, g (f p) = proj p.2)
    (htot : ∀ a b, le a b = true ∨ le b a = true)
    (htr : ∀ a b c, le a b = true → le b c = true → le a c = true)
    (himp : ∀ a b, le a b = true → R (proj a) (proj b)) :
    (rows.map g).Pairwise R := by
  subst hrows
  rw [List.map_map]
  have h2 : (g ∘ f) = proj ∘ Prod.snd := funext hgf
  rw [h2, ← List.map_map, enum1_map_snd, List.pairwise_map]
  exact (iSort_sorted le htot htr l).imp (fun hab => himp _ _ hab)

/-- C6 (corrected): the four non-date dimensions (customer, product,
region, ship mode) each carry surrogate keys exactly `1..N` in ascending
natural-key sort order, and the fact table's `sales_id` is dense, 1-based
and assigned in the same row order as the normalized input.  The date
dimension is excluded: its key is the `YYYYMMDD` encoding of the day, not
a dense `1..N` sequence. -/
theorem C6_surrogate_keys (df : List Rec) (s : StarSchema)
    (h : build_star_schema df = .ok s) :
    s.dim_customer.map (fun row => row.customer_key) =
      List.range' 1 s.dim_customer.length ∧
    (s.dim_customer.map (fun row => row.customer_id)).Pairwise
      (fun a b => strLe a b = true) ∧
    s.dim_product.map (fun row => row.product_key) =
      List.range' 1 s.dim_product.length ∧
    (s.dim_product.map (fun row => row.product_id)).Pairwise
      (fun a b => strLe a b = true) ∧
    s.dim_region.map (fun row => row.region_key) =
      List.range' 1 s.dim_region.length ∧
    (s.dim_region.map (fun row =>
      (row.country, row.region, row.state, row.city,
        row.postal_code))).Pairwise (fun a b => geo_le a b = true) ∧
    s.dim_ship_mode.map (fun row => row.ship_mode_key) =
      List.range' 1 s.dim_ship_mode.length ∧
    (s.dim_ship_mode.map (fun row => row.ship_mode)).Pairwise
      (fun a b => strLe a b = true) ∧
    s.fact_sales.map (fun f => f.sales_id) =
      List.range' 1 s.fact_sales.length ∧
    s.fact_sales.length = df.length ∧
    (∀ i, ∀ h1 : i < df.length, ∀ h2 : i < s.fact_sales.length,
      (s.fact_sales.get ⟨i, h2⟩).row_id = (df.get ⟨i, h1⟩).row_id ∧
      (s.fact_sales.get ⟨i, h2⟩).order_id = (df.get ⟨i, h1⟩).order_id ∧
      (s.fact_sales.get ⟨i, h2⟩).sales_amount = (df.get ⟨i, h1⟩).sales) := by
  rcases build_star_schema_ok_elim df s h with ⟨lo, hi, fact0, hlo, hhi, hfe, hs⟩
  have hfacts := fact_idx_elim df s h
  rcases hfacts with ⟨lo2, hi2, _, _, _, _, _, _, _, hlen, hspec⟩
  subst hs
  refine ⟨?_, ?_, ?_, ?_, ?_, ?_, ?_, ?_, ?_, hlen, ?_⟩
  · exact keys_dense_of _ _ _ _ rfl (fun p => rfl)
  · exact sorted_cols _ _ _ _
      (fun a b : String × String × String => strLe a.1 b.1)
      (fun a b : String => strLe a b = true) (fun t => t.1) rfl
      (fun p => rfl) (fun a b => strLe_total a.1 b.1)
      (fun a b c => strLe_trans a.1 b.1 c.1) (fun a b hab => hab)
  · exact keys_dense_of _ _ _ _ rfl (fun p => rfl)
  · exact sorted_cols _ _ _ _
      (fun a b : String × String × String => strLe a.1 b.1)
      (fun a b : String => strLe a b = true) (fun t => t.1) rfl
      (fun p => rfl) (fun a b => strLe_total a.1 b.1)
      (fun a b c => strLe_trans a.1 b.1 c.1) (fun a b hab => hab)
  · exact keys_dense_of _ _ _ _ rfl (fun p => rfl)
  · exact sorted_cols _ _ _ _ geo_le
      (fun a b : String × String × String × String × String =>
        geo_le a b = true)
      (fun t => t) rfl (fun p => rfl) geo_le_total geo_le_trans
      (fun a b hab => hab)
  · exact keys_dense_of _ _ _ _ rfl (fun p => rfl)
  · exact sorted_cols _ _ _ _ strLe
      (fun a b : String => strLe a b = true) (fun t => t) rfl
      (fun p => rfl) strLe_total strLe_trans (fun a b hab => hab)
  · exact keys_dense_of _ _ _ _ rfl (fun p => rfl)
  · intro i h1 h2
    rcases hspec i h1 h2 with ⟨_, hrow, hoid, _, _, _, _, _, _, hsal⟩
    exact ⟨hrow, hoid, hsal⟩

theorem C6_surrogate_keys_witness :
    build_star_schema [rec0] = .ok schema1 ∧
    schema1.dim_customer.map (fun row => row.customer_key) =
      List.range' 1 schema1.dim_customer.length ∧
    schema1.fact_sales.map (fun f => f.sales_id) =
      List.range' 1 schema1.fact_sales.length := by
  have hb : build_star_schema [rec0] = .ok schema1 := rfl
  have h := C6_surrogate_keys [rec0] schema1 hb
  exact ⟨hb, h.1, h.2.2.2.2.2.2.2.2.1⟩

/-- C6 counterexample: the date dimension's surrogate key is the
`YYYYMMDD` encoding, not `{1 .. N}`: on `[rec0]` it has one row whose key
is 16770922, not 1 — so not "each of the five dimension tables" has key
set `{1 .. N}`. -/
theorem C6_surrogate_keys_counterexample :
    build_star_schema [rec0] = .ok schema1 ∧
    schema1.dim_date.map (fun row => row.date_key) ≠
      List.range' 1 schema1.dim_date.length := by
  refine ⟨rfl, ?_⟩
  decide

theorem strLt_irrefl (s : String) : strLt s s = false := by
  cases hx : strLt s s with
  | false => rfl
  | true =>
    have h1 := strLt_asymm s s hx
    rw [h1] at hx
    exact Bool.noConfusion hx

theorem strLe_refl (s : String) : strLe s s = true := by
  unfold strLe
  rw [strLt_irrefl]
  rfl

theorem natDesc_connex (x y : Nat) (h1 : natDescLt x y = false)
    (h2 : natDescLt y x = false) : x = y := by
  unfold natDescLt at h1 h2
  simp at h1 h2
  omega

theorem natDesc_trans (x y z : Nat) (h1 : natDescLt x y = true)
    (h2 : natDescLt y z = true) : natDescLt x z = true := by
  unfold natDescLt at *
  simp at *
  omega

theorem inner_nc_total (a b : Nat × String) :
    lex_le natDescLt strLe a b = true ∨ lex_le natDescLt strLe b a = true :=
  lex_le_total natDescLt strLe natDesc_connex strLe_total a b

theorem inner_nc_trans (a b c : Nat × String)
    (h1 : lex_le natDescLt strLe a b = true)
    (h2 : lex_le natDescLt strLe b c = true) :
    lex_le natDescLt strLe a c = true :=
  lex_le_trans natDescLt strLe natDesc_connex natDesc_trans strLe_trans a b c h1 h2

theorem name_count_le_total (a b : (String × String) × Nat) :
    name_count_le a b = true ∨ name_count_le b a = true :=
  lex_le_total strLt _ strLt_connex inner_nc_total
    (a.1.1, (a.2, a.1.2)) (b.1.1, (b.2, b.1.2))

theorem name_count_le_trans (a b c : (String × String) × Nat)
    (h1 : name_count_le a b = true) (h2 : name_count_le b c = true) :
    name_count_le a c = true :=
  lex_le_trans strLt _ strLt_connex strLt_trans inner_nc_trans
    (a.1.1, (a.2, a.1.2)) (b.1.1, (b.2, b.1.2)) (c.1.1, (c.2, c.1.2)) h1 h2

/-- occurrences of the pair (product id, product name) among the records. -/
def name_count (df : List Rec) (pid nm : String) : Nat :=
  (df.filter fun r => decide ((r.product_id, r.product_name) = (pid, nm))).length

theorem name_counts_spec (df : List Rec) (q : (String × String) × Nat)
    (hq : q ∈ name_counts df) :
    q.2 = name_count df q.1.1 q.1.2 ∧
    ∃ r ∈ df, (r.product_id, r.product_name) = q.1 := by
  rw [name_counts] at hq
  rcases List.mem_map.1 hq with ⟨p0, hp0, hpq⟩
  constructor
  · rw [← hpq]
    rfl
  · have hmem : p0 ∈ df.map (fun r => (r.product_id, r.product_name)) :=
      (dedupByKey_sublist id _).subset hp0
    rcases List.mem_map.1 hmem with ⟨r, hr, hrp⟩
    refine ⟨r, hr, ?_⟩
    rw [hrp, ← hpq]

theorem name_counts_covers (df : List Rec) (pid nm : String)
    (h : ∃ r ∈ df, r.product_id = pid ∧ r.product_name = nm) :
    ∃ q ∈ name_counts df, q.1 = (pid, nm) := by
  rcases h with ⟨r, hr, h1, h2⟩
  have hpair : (pid, nm) ∈ df.map (fun r => (r.product_id, r.product_name)) :=
    List.mem_map.2 ⟨r, hr, by rw [h1, h2]⟩
  rcases dedupByKey_covers id _ _ hpair with ⟨b, hb, hkey⟩
  simp only [id] at hkey
  refine ⟨(b, (df.filter fun r =>
    decide ((r.product_id, r.product_name) = b)).length), ?_, hkey⟩
  exact List.mem_map_of_mem _ hb

/-- the record set of the spec's worked example: product id "P1" named
"Widget" three times and "widget" once. -/
def widgetRs : List Rec :=
  [rec0, { rec0 with row_id := 2 }, { rec0 with row_id := 3 },
   { rec0 with row_id := 4, product_name := "widget" }]

/-- C5: the resolved product name of each product id observed in the
records is the name with the highest occurrence count for that id, ties
broken by the lexicographically smallest name; in particular "P1" seen as
"Widget" three times and "widget" once resolves to "Widget". -/
theorem C5_mode_name (df : List Rec) (pid : String)
    (hobs : ∃ r ∈ df, r.product_id = pid) :
    (∃ rn, mode_name df pid = some rn ∧
      (∃ r ∈ df, r.product_id = pid ∧ r.product_name = rn) ∧
      (∀ nm, (∃ r ∈ df, r.product_id = pid ∧ r.product_name = nm) →
        name_count df pid nm < name_count df pid rn ∨
        (name_count df pid nm = name_count df pid rn ∧
          strLe rn nm = true))) ∧
    mode_name widgetRs "P1" = some "Widget" := by
  refine ⟨?_, by rfl⟩
  have hsortperm := iSort_perm name_count_le (name_counts df)
  have hsorted := iSort_sorted name_count_le name_count_le_total
    name_count_le_trans (name_counts df)
  have hcover : ∃ q ∈ mode_name_rows df, q.1.1 = pid := by
    rcases hobs with ⟨r, hr, hrpid⟩
    rcases name_counts_covers df pid r.product_name ⟨r, hr, hrpid, rfl⟩ with
      ⟨q0, hq0, hq0eq⟩
    have hq0s : q0 ∈ iSort name_count_le (name_counts df) :=
      hsortperm.mem_iff.2 hq0
    rcases dedupByKey_covers (fun p => p.1.1) _ q0 hq0s with ⟨b, hb, hbkey⟩
    refine ⟨b, hb, ?_⟩
    rw [hbkey, hq0eq]
  cases hfind : (mode_name_rows df).find? (fun p => decide (p.1.1 = pid)) with
  | none =>
    exfalso
    rcases hcover with ⟨q, hq, hqpid⟩
    have hnone := List.find?_eq_none.1 hfind q hq
    simp [hqpid] at hnone
  | some q =>
    have hfq := List.find?_some hfind
    have hqpid : q.1.1 = pid := of_decide_eq_true hfq
    have hqmem : q ∈ mode_name_rows df := List.mem_of_find?_eq_some hfind
    have hqsorted : q ∈ iSort name_count_le (name_counts df) :=
      (dedupByKey_sublist _ _).subset hqmem
    have hqnc : q ∈ name_counts df := hsortperm.mem_iff.1 hqsorted
    rcases name_counts_spec df q hqnc with ⟨hqcount, r0, hr0, hr0p⟩
    refine ⟨q.1.2, ?_, ?_, ?_⟩
    · rw [mode_name, hfind]
      rfl
    · refine ⟨r0, hr0, ?_, ?_⟩
      · rw [show r0.product_id = (r0.product_id, r0.product_name).1 from rfl,
          hr0p, hqpid]
      · rw [show r0.product_name = (r0.product_id, r0.product_name).2 from rfl,
          hr0p]
    · intro nm hnm
      rcases name_counts_covers df pid nm hnm with ⟨qn, hqn, hqneq⟩
      have hqn1 : qn.1.1 = pid := by rw [hqneq]
      have hqn2 : qn.1.2 = nm := by rw [hqneq]
      have hqns : qn ∈ iSort name_count_le (name_counts df) :=
        hsortperm.mem_iff.2 hqn
      rcases name_counts_spec df qn hqn with ⟨hqncount, _⟩
      rcases dedupByKey_first (fun p : (String × String) × Nat => p.1.1)
        (iSort name_count_le (name_counts df)) q hqmem with
        ⟨i, hilt, higet, hfirst⟩
      rcases List.mem_iff_get.1 hqns with ⟨⟨j, hjlt⟩, hjget⟩
      rcases Nat.lt_or_ge j i with hji | hij
      · exfalso
        have h2 := hfirst j hjlt hji
        rw [hjget] at h2
        apply h2
        rw [hqn1, hqpid]
      · rcases Nat.eq_or_lt_of_le hij with heq | hlt
        · subst heq
          have hq_eq : q = qn := by
            rw [← higet]
            exact hjget
          right
          constructor
          · rw [show q.1.2 = nm from by rw [hq_eq, hqn2]]
          · rw [show q.1.2 = nm from by rw [hq_eq, hqn2]]
            exact strLe_refl nm
        · have hrel := List.pairwise_iff_get.1 hsorted ⟨i, hilt⟩ ⟨j, hjlt⟩ hlt
          rw [higet, hjget] at hrel
          unfold name_count_le at hrel
          rw [lex_le_iff strLt _ strLt_connex] at hrel
          dsimp only at hrel
          rcases hrel with hfst | ⟨heq1, hinner⟩
          · exfalso
            rw [hqpid, hqn1, strLt_irrefl] at hfst
            exact Bool.noConfusion hfst
          · rw [lex_le_iff natDescLt strLe natDesc_connex] at hinner
            dsimp only at hinner
            rcases hinner with hcnt | ⟨hceq, hle⟩
            · left
              have hlt2 : qn.2 < q.2 := of_decide_eq_true hcnt
              rw [hqcount, hqncount, hqpid, hqn1, hqn2] at hlt2
              exact hlt2
            · right
              constructor
              · rw [hqcount, hqncount, hqpid, hqn1, hqn2] at hceq
                exact hceq.symm
              · rw [← hqn2]
                exact hle

theorem C5_mode_name_witness :
    (∃ r ∈ widgetRs, r.product_id = "P1") ∧
    mode_name widgetRs "P1" = some "Widget" := by
  have hobs : ∃ r ∈ widgetRs, r.product_id = "P1" :=
    ⟨rec0, by decide, rfl⟩
  exact ⟨hobs, (C5_mode_name widgetRs "P1" hobs).2⟩

theorem filter_key_unique (f : α → κ) [DecidableEq κ] (l : List α) (t : κ)
    (hp : l.Pairwise (fun a b => f a ≠ f b))
    (hex : ∃ a ∈ l, f a = t) :
    (l.filter fun a => decide (f a = t)).length = 1 := by
  induction l with
  | nil =>
    rcases hex with ⟨a, ha, _⟩
    exact absurd ha (List.not_mem_nil a)
  | cons a l ih =>
    rcases List.pairwise_cons.1 hp with ⟨ha, hpl⟩
    by_cases hat : f a = t
    · rw [List.filter_cons_of_pos (by simpa using hat)]
      have hnil : (l.filter fun b => decide (f b = t)) = [] := by
        rw [List.filter_eq_nil_iff]
        intro b hb
        simp only [decide_eq_true_eq]
        intro hbt
        exact ha b hb (hat.trans hbt.symm)
      rw [hnil]
      rfl
    · rw [List.filter_cons_of_neg (by simpa using hat)]
      apply ih hpl
      rcases hex with ⟨c, hc, hct⟩
      rcases List.mem_cons.1 hc with rfl | hcl
      · exact absurd hct hat
      · exact ⟨c, hcl, hct⟩

/-- `dict(zip(dim["Customer ID"], dim["customer_key"]))` resolves a
customer id to the key of the LAST dimension row bearing that id. -/
theorem cust_to_key_last (dc : List CustomerRow) (cid : String) :
    cust_to_key dc cid =
      ((dc.filter fun c => decide (c.customer_id = cid)).getLast?).map
        (fun c => c.customer_key) := by
  rw [cust_to_key, dict_of_eq_last,
    List.filter_map (fun r : CustomerRow => (r.customer_id, r.customer_key)) dc,
    List.getLast?_map, Option.map_map]
  rfl

/-- `dict(zip(dim["Product ID"], dim["product_key"]))` resolves a product
id to the key of the LAST dimension row bearing that id. -/
theorem prod_to_key_last (dp : List ProductRow) (pid : String) :
    prod_to_key dp pid =
      ((dp.filter fun c => decide (c.product_id = pid)).getLast?).map
        (fun c => c.product_key) := by
  rw [prod_to_key, dict_of_eq_last,
    List.filter_map (fun r : ProductRow => (r.product_id, r.product_key)) dp,
    List.getLast?_map, Option.map_map]
  rfl

theorem dim_customer_map_tuple (df : List Rec) :
    (dim_customer_of df).map
        (fun c => (c.customer_id, c.customer_name, c.segment)) =
      iSort (fun a b => strLe a.1 b.1) (dedupByKey id (df.map cust_tuple)) := by
  rw [dim_customer_of, List.map_map]
  exact enum1_map_snd 1 _

theorem dim_product_map_tuple (df : List Rec) :
    (dim_product_of df).map
        (fun c => (c.product_id, c.category, c.sub_category)) =
      iSort (fun a b => strLe a.1 b.1) (dedupByKey id (df.map prod_tuple)) := by
  rw [dim_product_of, List.map_map]
  exact enum1_map_snd 1 _

theorem dim_customer_tuple_unique (df : List Rec) (t : String × String × String)
    (hex : ∃ r ∈ df, cust_tuple r = t) :
    ((dim_customer_of df).filter fun c =>
      decide ((c.customer_id, c.customer_name, c.segment) = t)).length = 1 := by
  have hdd := dedupByKey_pairwise id (df.map cust_tuple)
  have hsrt : (iSort (fun a b => strLe a.1 b.1)
      (dedupByKey id (df.map cust_tuple))).Pairwise (fun a b => id a ≠ id b) :=
    ((iSort_perm _ _).pairwise_iff (fun h => Ne.symm h)).2 hdd
  rw [← dim_customer_map_tuple] at hsrt
  apply filter_key_unique
    (fun c : CustomerRow => (c.customer_id, c.customer_name, c.segment))
  · exact List.pairwise_map.1 hsrt
  · rcases hex with ⟨r, hr, hrt⟩
    have h1 : t ∈ df.map cust_tuple := List.mem_map.2 ⟨r, hr, hrt⟩
    rcases dedupByKey_covers id _ _ h1 with ⟨b, hb, hkey⟩
    simp only [id] at hkey
    have hb2 : b ∈ iSort (fun a b => strLe a.1 b.1)
        (dedupByKey id (df.map cust_tuple)) := (mem_iSort _ _ _).2 hb
    rw [← dim_customer_map_tuple] at hb2
    rcases List.mem_map.1 hb2 with ⟨c, hc, hcb⟩
    exact ⟨c, hc, hcb.trans hkey⟩

theorem dim_product_tuple_unique (df : List Rec) (t : String × String × String)
    (hex : ∃ r ∈ df, prod_tuple r = t) :
    ((dim_product_of df).filter fun c =>
      decide ((c.product_id, c.category, c.sub_category) = t)).length = 1 := by
  have hdd := dedupByKey_pairwise id (df.map prod_tuple)
  have hsrt : (iSort (fun a b => strLe a.1 b.1)
      (dedupByKey id (df.map prod_tuple))).Pairwise (fun a b => id a ≠ id b) :=
    ((iSort_perm _ _).pairwise_iff (fun h => Ne.symm h)).2 hdd
  rw [← dim_product_map_tuple] at hsrt
  apply filter_key_unique
    (fun c : ProductRow => (c.product_id, c.category, c.sub_category))
  · exact List.pairwise_map.1 hsrt
  · rcases hex with ⟨r, hr, hrt⟩
    have h1 : t ∈ df.map prod_tuple := List.mem_map.2 ⟨r, hr, hrt⟩
    rcases dedupByKey_covers id _ _ h1 with ⟨b, hb, hkey⟩
    simp only [id] at hkey
    have hb2 : b ∈ iSort (fun a b => strLe a.1 b.1)
        (dedupByKey id (df.map prod_tuple)) := (mem_iSort _ _ _).2 hb
    rw [← dim_product_map_tuple] at hb2
    rcases List.mem_map.1 hb2 with ⟨c, hc, hcb⟩
    exact ⟨c, hc, hcb.trans hkey⟩

/-- C10: the customer and product fact lookups are keyed on the bare
identifier only, not the full composite natural key: the dimension keeps
one row per distinct attribute combination, while every fact row bearing
an identifier receives the surrogate key of the LAST dimension row with
that identifier (so the fact row's source attributes need not match the
non-key attributes of the dimension row it references). -/
theorem C10_bare_id_lookup (df : List Rec) (s : StarSchema)
    (h : build_star_schema df = .ok s) :
    (∀ t, (∃ r ∈ df, cust_tuple r = t) →
        (s.dim_customer.filter fun c =>
          decide ((c.customer_id, c.customer_name, c.segment) = t)).length
          = 1) ∧
    (∀ t, (∃ r ∈ df, prod_tuple r = t) →
        (s.dim_product.filter fun c =>
          decide ((c.product_id, c.category, c.sub_category) = t)).length
          = 1) ∧
    ∀ i, ∀ h1 : i < df.length, ∀ h2 : i < s.fact_sales.length,
      (s.fact_sales.get ⟨i, h2⟩).customer_key =
        ((s.dim_customer.filter fun c =>
            decide (c.customer_id = (df.get ⟨i, h1⟩).customer_id)).getLast?).map
          (fun c => c.customer_key) ∧
      (s.fact_sales.get ⟨i, h2⟩).product_key =
        ((s.dim_product.filter fun c =>
            decide (c.product_id = (df.get ⟨i, h1⟩).product_id)).getLast?).map
          (fun c => c.product_key) ∧
      (∃ c ∈ s.dim_customer,
        (s.fact_sales.get ⟨i, h2⟩).customer_key = some c.customer_key ∧
        c.customer_id = (df.get ⟨i, h1⟩).customer_id) ∧
      (∃ p ∈ s.dim_product,
        (s.fact_sales.get ⟨i, h2⟩).product_key = some p.product_key ∧
        p.product_id = (df.get ⟨i, h1⟩).product_id) := by
  rcases fact_idx_elim df s h with
    ⟨lo, hi, hlo, hhi, hdd, hdc, hdp, hdr, hds, hflen, hfact⟩
  refine ⟨?_, ?_, ?_⟩
  · intro t hex
    rw [hdc]
    exact dim_customer_tuple_unique df t hex
  · intro t hex
    rw [hdp]
    exact dim_product_tuple_unique df t hex
  · intro i h1 h2
    obtain ⟨_, _, _, _, _, hck, hpk, _, _, _⟩ := hfact i h1 h2
    have hr : df.get ⟨i, h1⟩ ∈ df := List.get_mem df i h1
    refine ⟨?_, ?_, ?_, ?_⟩
    · rw [hck, hdc, cust_to_key_last]
    · rw [hpk, hdp, prod_to_key_last]
    · rcases cust_to_key_hit df _ hr with ⟨k, hk⟩
      have hk2 : dict_of ((dim_customer_of df).map fun c =>
          (c.customer_id, c.customer_key)) (df.get ⟨i, h1⟩).customer_id
          = some k := hk
      have hmem := dict_of_mem _ _ _ hk2
      rcases List.mem_map.1 hmem with ⟨c, hc, hcp⟩
      injection hcp with he1 he2
      refine ⟨c, by rw [hdc]; exact hc, ?_, he1⟩
      rw [hck, hk, he2]
    · rcases prod_to_key_hit df _ hr with ⟨k, hk⟩
      have hk2 : dict_of ((dim_product_of df).map fun c =>
          (c.product_id, c.product_key)) (df.get ⟨i, h1⟩).product_id
          = some k := hk
      have hmem := dict_of_mem _ _ _ hk2
      rcases List.mem_map.1 hmem with ⟨c, hc, hcp⟩
      injection hcp with he1 he2
      refine ⟨c, by rw [hdp]; exact hc, ?_, he1⟩
      rw [hpk, hk, he2]

/-- a record set in which the single customer id "C1" occurs with two
distinct (name, segment) combinations. -/
def rsC10 : List Rec :=
  [rec0, { rec0 with row_id := 2, segment := "Corporate" }]

def sC10 : StarSchema := (build_star_schema rsC10).toOption.getD default

theorem C10_bare_id_lookup_witness :
    build_star_schema rsC10 = .ok sC10 ∧
    (∀ t, (∃ r ∈ rsC10, cust_tuple r = t) →
        (sC10.dim_customer.filter fun c =>
          decide ((c.customer_id, c.customer_name, c.segment) = t)).length
          = 1) ∧
    sC10.dim_customer.length = 2 :=
  ⟨rfl, (C10_bare_id_lookup rsC10 sC10 rfl).1, rfl⟩

theorem dChar_lt_iff (a b : Nat) : dChar a < dChar b ↔ a % 10 < b % 10 := by
  have ha : a % 10 < 10 := Nat.mod_lt a (by omega)
  have hb : b % 10 < 10 := Nat.mod_lt b (by omega)
  show Char.ofNat (48 + a % 10) < Char.ofNat (48 + b % 10) ↔ a % 10 < b % 10
  revert ha hb
  generalize a % 10 = x
  generalize b % 10 = y
  intro ha hb
  interval_cases x <;> interval_cases y <;> decide

theorem dChar_toNat (a : Nat) : (dChar a).toNat = 48 + a % 10 := by
  have ha : a % 10 < 10 := Nat.mod_lt a (by omega)
  show (Char.ofNat (48 + a % 10)).toNat = 48 + a % 10
  revert ha
  generalize a % 10 = x
  intro ha
  interval_cases x <;> decide

theorem dChar_ne_dash (a : Nat) : ¬ dChar a = '-' := by
  have ha : a % 10 < 10 := Nat.mod_lt a (by omega)
  show ¬ Char.ofNat (48 + a % 10) = '-'
  revert ha
  generalize a % 10 = x
  intro ha
  interval_cases x <;> decide

theorem ltCharList_cons_dChar (a b : Nat) (as bs : List Char) :
    ltCharList (dChar a :: as) (dChar b :: bs) =
      if a % 10 < b % 10 then true
      else if b % 10 < a % 10 then false
      else ltCharList as bs := by
  show (if dChar a < dChar b then true
    else if dChar b < dChar a then false else ltCharList as bs) = _
  by_cases h1 : a % 10 < b % 10
  · rw [if_pos ((dChar_lt_iff a b).2 h1), if_pos h1]
  · rw [if_neg (fun hc => h1 ((dChar_lt_iff a b).1 hc)), if_neg h1]
    by_cases h2 : b % 10 < a % 10
    · rw [if_pos ((dChar_lt_iff b a).2 h2), if_pos h2]
    · rw [if_neg (fun hc => h2 ((dChar_lt_iff b a).1 hc)), if_neg h2]

theorem ltCharList_cons_dash (as bs : List Char) :
    ltCharList ('-' :: as) ('-' :: bs) = ltCharList as bs := by
  show (if ('-' : Char) < '-' then true
    else if ('-' : Char) < '-' then false else ltCharList as bs) = _
  rw [if_neg (by decide), if_neg (by decide)]

theorem ltCharList_nil : ltCharList [] [] = false := rfl

set_option maxHeartbeats 1000000 in
theorem ltCharList_label (y1 m1 y2 m2 : Nat)
    (hy1 : y1 < 10000) (hy2 : y2 < 10000) (hm1 : m1 < 100) (hm2 : m2 < 100) :
    ltCharList (month_label_of y1 m1).data (month_label_of y2 m2).data =
      decide (y1 * 100 + m1 < y2 * 100 + m2) := by
  show ltCharList
      [dChar (y1 / 1000), dChar (y1 / 100), dChar (y1 / 10), dChar y1,
        '-', dChar (m1 / 10), dChar m1]
      [dChar (y2 / 1000), dChar (y2 / 100), dChar (y2 / 10), dChar y2,
        '-', dChar (m2 / 10), dChar m2] = _
  rw [ltCharList_cons_dChar, ltCharList_cons_dChar, ltCharList_cons_dChar,
    ltCharList_cons_dChar, ltCharList_cons_dash, ltCharList_cons_dChar,
    ltCharList_cons_dChar, ltCharList_nil]
  by_cases h1 : y1 / 1000 % 10 < y2 / 1000 % 10
  · rw [if_pos h1]
    exact (decide_eq_true (by omega)).symm
  · rw [if_neg h1]
    by_cases h2 : y2 / 1000 % 10 < y1 / 1000 % 10
    · rw [if_pos h2]
      exact (decide_eq_false (by omega)).symm
    · rw [if_neg h2]
      by_cases h3 : y1 / 100 % 10 < y2 / 100 % 10
      · rw [if_pos h3]
        exact (decide_eq_true (by omega)).symm
      · rw [if_neg h3]
        by_cases h4 : y2 / 100 % 10 < y1 / 100 % 10
        · rw [if_pos h4]
          exact (decide_eq_false (by omega)).symm
        · rw [if_neg h4]
          by_cases h5 : y1 / 10 % 10 < y2 / 10 % 10
          · rw [if_pos h5]
            exact (decide_eq_true (by omega)).symm
          · rw [if_neg h5]
            by_cases h6 : y2 / 10 % 10 < y1 / 10 % 10
            · rw [if_pos h6]
              exact (decide_eq_false (by omega)).symm
            · rw [if_neg h6]
              by_cases h7 : y1 % 10 < y2 % 10
              · rw [if_pos h7]
                exact (decide_eq_true (by omega)).symm
              · rw [if_neg h7]
                by_cases h8 : y2 % 10 < y1 % 10
                · rw [if_pos h8]
                  exact (decide_eq_false (by omega)).symm
                · rw [if_neg h8]
                  by_cases h9 : m1 / 10 % 10 < m2 / 10 % 10
                  · rw [if_pos h9]
                    exact (decide_eq_true (by omega)).symm
                  · rw [if_neg h9]
                    by_cases h10 : m2 / 10 % 10 < m1 / 10 % 10
                    · rw [if_pos h10]
                      exact (decide_eq_false (by omega)).symm
                    · rw [if_neg h10]
                      by_cases h11 : m1 % 10 < m2 % 10
                      · rw [if_pos h11]
                        exact (decide_eq_true (by omega)).symm
                      · rw [if_neg h11]
                        by_cases h12 : m2 % 10 < m1 % 10
                        · rw [if_pos h12]
                          exact (decide_eq_false (by omega)).symm
                        · rw [if_neg h12]
                          exact (decide_eq_false (by omega)).symm

theorem strLe_label (y1 m1 y2 m2 : Nat)
    (hy1 : y1 < 10000) (hy2 : y2 < 10000) (hm1 : m1 < 100) (hm2 : m2 < 100) :
    (strLe (month_label_of y1 m1) (month_label_of y2 m2) = true) ↔
      y1 * 100 + m1 ≤ y2 * 100 + m2 := by
  rw [strLe, strLt, ltCharList_label y2 m2 y1 m1 hy2 hy1 hm2 hm1]
  rcases Nat.lt_or_ge (y2 * 100 + m2) (y1 * 100 + m1) with h | h
  · rw [decide_eq_true h]
    constructor
    · intro hh
      exact absurd hh (by decide)
    · intro hh
      exact ((by omega : False)).elim
  · rw [decide_eq_false (by omega)]
    constructor
    · intro _
      omega
    · intro _
      rfl

def labelNum (s : String) : Nat :=
  s.data.foldl (fun acc c => if c = '-' then acc else acc * 10 + (c.toNat - 48)) 0

theorem labelStep_dChar (acc a : Nat) :
    (if dChar a = '-' then acc else acc * 10 + ((dChar a).toNat - 48)) =
      acc * 10 + a % 10 := by
  rw [if_neg (dChar_ne_dash a), dChar_toNat]
  omega

theorem labelNum_label (y m : Nat) (hy : y < 10000) (hm : m < 100) :
    labelNum (month_label_of y m) = y * 100 + m := by
  show List.foldl
      (fun acc c => if c = '-' then acc else acc * 10 + (c.toNat - 48)) 0
      [dChar (y / 1000), dChar (y / 100), dChar (y / 10), dChar y,
        '-', dChar (m / 10), dChar m] = y * 100 + m
  simp only [List.foldl_cons, List.foldl_nil, labelStep_dChar, if_pos]
  omega

theorem descQ_total (a b : String × ℚ) :
    (fun a b : String × ℚ => decide (b.2 ≤ a.2)) a b = true ∨
      (fun a b : String × ℚ => decide (b.2 ≤ a.2)) b a = true := by
  rcases le_total b.2 a.2 with h | h
  · exact Or.inl (decide_eq_true h)
  · exact Or.inr (decide_eq_true h)

theorem descQ_trans (a b c : String × ℚ)
    (h1 : (fun a b : String × ℚ => decide (b.2 ≤ a.2)) a b = true)
    (h2 : (fun a b : String × ℚ => decide (b.2 ≤ a.2)) b c = true) :
    (fun a b : String × ℚ => decide (b.2 ≤ a.2)) a c = true :=
  decide_eq_true (le_trans (of_decide_eq_true h2) (of_decide_eq_true h1))

theorem labLe_total (a b : String × ℚ) :
    (fun a b : String × ℚ => strLe a.1 b.1) a b = true ∨
      (fun a b : String × ℚ => strLe a.1 b.1) b a = true :=
  strLe_total a.1 b.1

theorem labLe_trans (a b c : String × ℚ)
    (h1 : (fun a b : String × ℚ => strLe a.1 b.1) a b = true)
    (h2 : (fun a b : String × ℚ => strLe a.1 b.1) b c = true) :
    (fun a b : String × ℚ => strLe a.1 b.1) a c = true :=
  strLe_trans a.1 b.1 c.1 h1 h2

theorem table_values (le : (String × ℚ) → (String × ℚ) → Bool)
    (keys : List String) (total : String → ℚ) (p : String × ℚ)
    (hp : p ∈ iSort le (keys.map fun k => (k, total k))) :
    p.2 = total p.1 := by
  have hq : p ∈ keys.map fun k => (k, total k) := (mem_iSort _ _ _).1 hp
  rcases List.mem_map.1 hq with ⟨k, hk, hkq⟩
  rw [← hkq]

theorem table_fst_perm (le : (String × ℚ) → (String × ℚ) → Bool)
    (keys : List String) (total : String → ℚ) :
    ((iSort le (keys.map fun k => (k, total k))).map Prod.fst).Perm keys := by
  have h2 := (iSort_perm le (keys.map fun k => (k, total k))).map Prod.fst
  have h3 : (keys.map fun k => (k, total k)).map Prod.fst = keys := by
    rw [List.map_map]
    exact List.map_id keys
  rw [h3] at h2
  exact h2

theorem table_pairwise (keys : List String) (total : String → ℚ) :
    (iSort (fun a b : String × ℚ => decide (b.2 ≤ a.2))
        (keys.map fun k => (k, total k))).Pairwise
      (fun p q => total q.1 ≤ total p.1) := by
  have hs := iSort_sorted (fun a b : String × ℚ => decide (b.2 ≤ a.2))
    descQ_total descQ_trans (keys.map fun k => (k, total k))
  refine List.Pairwise.imp_of_mem ?_ hs
  intro a b ha hb hab
  have h2 : b.2 ≤ a.2 := of_decide_eq_true hab
  rw [table_values _ keys total a ha, table_values _ keys total b hb] at h2
  exact h2

theorem month_label_some (r : Rec) (o : Nat) (ho : r.order_date = some o) :
    month_label r = month_label_of (dateOfOrd o).year (dateOfOrd o).month := by
  rw [month_label, ho]

theorem monthly_label_form (df : List Rec)
    (hdates : ∀ r ∈ df, ∃ o, r.order_date = some o ∧ (dateOfOrd o).year < 10000)
    (p : String × ℚ)
    (hp : p ∈ iSort (fun a b : String × ℚ => strLe a.1 b.1)
      ((dedupByKey id (df.map month_label)).map
        fun lab => (lab, month_total df lab))) :
    ∃ y m, y < 10000 ∧ 1 ≤ m ∧ m ≤ 12 ∧ p.1 = month_label_of y m ∧
      ∃ r ∈ df, ∃ o, r.order_date = some o ∧
        (dateOfOrd o).year = y ∧ (dateOfOrd o).month = m := by
  have hp2 : p ∈ (dedupByKey id (df.map month_label)).map
      fun lab => (lab, month_total df lab) := (mem_iSort _ _ _).1 hp
  rcases List.mem_map.1 hp2 with ⟨lab, hlabmem, hlabp⟩
  have hlab2 : lab ∈ df.map month_label :=
    (dedupByKey_sublist id _).subset hlabmem
  rcases List.mem_map.1 hlab2 with ⟨r, hr, hrl⟩
  rcases hdates r hr with ⟨o, ho, hy⟩
  have hv := dateOfOrd_valid o
  refine ⟨(dateOfOrd o).year, (dateOfOrd o).month, hy, hv.1, hv.2.1, ?_,
    r, hr, o, ho, rfl, rfl⟩
  rw [← hlabp]
  show lab = _
  rw [← hrl]
  exact month_label_some r o ho

theorem monthly_chrono (df : List Rec)
    (hdates : ∀ r ∈ df, ∃ o, r.order_date = some o ∧
      (dateOfOrd o).year < 10000) :
    (monthly_sales_trend df).Pairwise
      (fun p q => labelNum p.1 < labelNum q.1) := by
  rw [monthly_sales_trend]
  refine List.pairwise_map.2 ?_
  have hsorted := iSort_sorted (fun a b : String × ℚ => strLe a.1 b.1)
    labLe_total labLe_trans
    ((dedupByKey id (df.map month_label)).map
      fun lab => (lab, month_total df lab))
  have hdd : (dedupByKey id (df.map month_label)).Pairwise
      (fun a b => a ≠ b) := dedupByKey_pairwise id (df.map month_label)
  have hinner : ((dedupByKey id (df.map month_label)).map
      fun lab => (lab, month_total df lab)).Pairwise
      (fun a b => a.1 ≠ b.1) := List.pairwise_map.2 hdd
  have hsfst : (iSort (fun a b : String × ℚ => strLe a.1 b.1)
      ((dedupByKey id (df.map month_label)).map
        fun lab => (lab, month_total df lab))).Pairwise
      (fun a b => a.1 ≠ b.1) :=
    ((iSort_perm _ _).pairwise_iff (fun h hh => h hh.symm)).2 hinner
  refine List.Pairwise.imp_of_mem ?_ (hsorted.and hsfst)
  intro a b ha hb hab
  obtain ⟨hle, hne⟩ := hab
  rcases monthly_label_form df hdates a ha with
    ⟨ya, ma, hya, hma1, hma2, haeq, _⟩
  rcases monthly_label_form df hdates b hb with
    ⟨yb, mb, hyb, hmb1, hmb2, hbeq, _⟩
  rw [haeq, hbeq] at hle hne
  show labelNum a.1 < labelNum b.1
  rw [haeq, hbeq, labelNum_label ya ma hya (by omega),
    labelNum_label yb mb hyb (by omega)]
  have hnum : ya * 100 + ma ≤ yb * 100 + mb :=
    (strLe_label ya ma yb mb hya hyb (by omega) (by omega)).1 hle
  rcases Nat.eq_or_lt_of_le hnum with heq | hlt
  · exfalso
    have hym : ya = yb ∧ ma = mb := by omega
    exact hne (by rw [hym.1, hym.2])
  · exact hlt

/-- the spec's aggregation example: categories A: 100, A: 50, B: 30. -/
def exC8 : List Rec :=
  [{ rec0 with category := "A", sales := 100 },
   { rec0 with row_id := 2, category := "A", sales := 50 },
   { rec0 with row_id := 3, category := "B", sales := 30 }]

/-- a record whose order date is missing (`NaT`). -/
def recNaT : Rec := { rec0 with order_date := none }

/-- C8: on a record subset whose order dates are all present (and whose
years stay below 10000), the summary carries the exact total rounded at
output; sales-by-category over exactly the distinct categories, ordered
descending by exact total, each value the rounding of the exact group sum;
top products = the first 10 of the descending exact product table, rounded
at output; and a monthly trend keyed by "YYYY-MM" labels in chronological
order whose values round the exact month sums; in particular categories
{A: 100, A: 50, B: 30} yield [("A", 150), ("B", 30)]. -/
theorem C8_summary (df : List Rec)
    (hdates : ∀ r ∈ df, ∃ o, r.order_date = some o ∧
      (dateOfOrd o).year < 10000) :
    (make_summary_json df).total_sales = round2 (sum_sales df) ∧
    ((make_summary_json df).sales_by_category.map Prod.fst).Perm
      (dedupByKey id (df.map fun r => r.category)) ∧
    (∀ p ∈ (make_summary_json df).sales_by_category,
      p.2 = round2 (cat_total df p.1)) ∧
    (make_summary_json df).sales_by_category.Pairwise
      (fun p q => cat_total df q.1 ≤ cat_total df p.1) ∧
    (∃ full : List (String × ℚ),
      (full.map Prod.fst).Perm
        (dedupByKey id (df.map fun r => r.product_name)) ∧
      (∀ p ∈ full, p.2 = prodname_total df p.1) ∧
      full.Pairwise (fun p q => q.2 ≤ p.2) ∧
      (make_summary_json df).top_products =
        (full.take 10).map fun p => (p.1, round2 p.2)) ∧
    ((make_summary_json df).monthly_sales_trend.map Prod.fst).Perm
      (dedupByKey id (df.map month_label)) ∧
    (∀ p ∈ (make_summary_json df).monthly_sales_trend,
      p.2 = round2 (month_total df p.1) ∧
      ∃ y m, y < 10000 ∧ 1 ≤ m ∧ m ≤ 12 ∧ p.1 = month_label_of y m ∧
        ∃ r ∈ df, ∃ o, r.order_date = some o ∧
          (dateOfOrd o).year = y ∧ (dateOfOrd o).month = m) ∧
    (make_summary_json df).monthly_sales_trend.Pairwise
      (fun p q => labelNum p.1 < labelNum q.1) ∧
    sales_by_category exC8 = [("A", 150), ("B", 30)] := by
  refine ⟨rfl, ?_, ?_, ?_, ?_, ?_, ?_, monthly_chrono df hdates,
    by with_unfolding_all rfl⟩
  · show ((sales_by_category df).map Prod.fst).Perm _
    rw [sales_by_category, List.map_map]
    exact (table_fst_perm (fun a b : String × ℚ => decide (b.2 ≤ a.2))
      (iSort strLe (dedupByKey id (df.map fun r => r.category)))
      (cat_total df)).trans
        (iSort_perm strLe (dedupByKey id (df.map fun r => r.category)))
  · intro p hp
    have hp2 : p ∈ (iSort (fun a b : String × ℚ => decide (b.2 ≤ a.2))
        ((iSort strLe (dedupByKey id (df.map fun r => r.category))).map
          fun c => (c, cat_total df c))).map
        (fun p => (p.1, round2 p.2)) := hp
    rcases List.mem_map.1 hp2 with ⟨q, hq, hqp⟩
    rw [← hqp]
    show round2 q.2 = round2 (cat_total df q.1)
    rw [table_values _ (iSort strLe (dedupByKey id
      (df.map fun r => r.category))) (cat_total df) q hq]
  · show (sales_by_category df).Pairwise _
    rw [sales_by_category]
    exact List.pairwise_map.2 (table_pairwise
      (iSort strLe (dedupByKey id (df.map fun r => r.category)))
      (cat_total df))
  · refine ⟨iSort (fun a b : String × ℚ => decide (b.2 ≤ a.2))
      ((iSort strLe (dedupByKey id (df.map fun r => r.product_name))).map
        fun n => (n, prodname_total df n)), ?_, ?_, ?_, ?_⟩
    · exact (table_fst_perm (fun a b : String × ℚ => decide (b.2 ≤ a.2))
        (iSort strLe (dedupByKey id (df.map fun r => r.product_name)))
        (prodname_total df)).trans
          (iSort_perm strLe (dedupByKey id (df.map fun r => r.product_name)))
    · intro p hp
      exact table_values _ (iSort strLe (dedupByKey id
        (df.map fun r => r.product_name))) (prodname_total df) p hp
    · exact (iSort_sorted (fun a b : String × ℚ => decide (b.2 ≤ a.2))
        descQ_total descQ_trans _).imp (fun h => of_decide_eq_true h)
    · rfl
  · show ((monthly_sales_trend df).map Prod.fst).Perm _
    rw [monthly_sales_trend, List.map_map]
    exact table_fst_perm (fun a b : String × ℚ => strLe a.1 b.1)
      (dedupByKey id (df.map month_label)) (month_total df)
  · intro p hp
    have hp2 : p ∈ (iSort (fun a b : String × ℚ => strLe a.1 b.1)
        ((dedupByKey id (df.map month_label)).map
          fun lab => (lab, month_total df lab))).map
        (fun p => (p.1, round2 p.2)) := hp
    rcases List.mem_map.1 hp2 with ⟨q, hq, hqp⟩
    constructor
    · rw [← hqp]
      show round2 q.2 = round2 (month_total df q.1)
      rw [table_values _ (dedupByKey id (df.map month_label))
        (month_total df) q hq]
    · rcases monthly_label_form df hdates q hq with
        ⟨y, m, hy, hm1, hm2, hqeq, hr⟩
      rw [← hqp]
      exact ⟨y, m, hy, hm1, hm2, hqeq, hr⟩

theorem C8_summary_counterexample :
    (make_summary_json [recNaT]).monthly_sales_trend = [("NaT", 10)] ∧
    ∀ y m, month_label_of y m ≠ "NaT" := by
  constructor
  · with_unfolding_all rfl
  · intro y m heq
    have hlen := congrArg (fun s : String => s.data.length) heq
    simp [month_label_of, pad4] at hlen

theorem C8_summary_witness :
    (∀ r ∈ exC8, ∃ o, r.order_date = some o ∧
      (dateOfOrd o).year < 10000) ∧
    sales_by_category exC8 = [("A", 150), ("B", 30)] := by
  have hd : ∀ r ∈ exC8, ∃ o, r.order_date = some o ∧
      (dateOfOrd o).year < 10000 := by
    intro r hr
    rcases List.mem_cons.1 hr with rfl | hr
    · exact ⟨0, rfl, by decide⟩
    rcases List.mem_cons.1 hr with rfl | hr
    · exact ⟨0, rfl, by decide⟩
    rcases List.mem_cons.1 hr with rfl | hr
    · exact ⟨0, rfl, by decide⟩
    · exact absurd hr (List.not_mem_nil r)
  exact ⟨hd, (C8_summary exC8 hd).2.2.2.2.2.2.2.2⟩
